import Mathlib

/-!
Verification of the enterprise-architecture repository core: a shallow
embedding of the typed element/relationship store, the relationship
semantics table, the scope write policy, the snapshot serialization and
history mechanism, and the governance mode gate, together with theorems
settling the specification claims against this embedding.

Sources embedded:
- architectureScopePolicy (isObjectTypeWritableForScope, getReadOnlyReason)
- eaMetaModel (object types, layers)
- ArchitectureRepository (addElement, getElementById, getElementsByType)
- RelationshipSemantics (RELATIONSHIP_ENDPOINT_RULES, rule lookup)
- EaRepositoryProvider (stableStringify, hasReadOnlyObjectChanges,
  setEaRepository, serializeRepository, tryDeserializeRepository,
  undo, redo, the settle effect, the Strict and Advisory gates)
- governanceValidation (buildGovernanceDebt projection loops, summary)

Parts of the repository whose source files are absent (the EaRepository
container class, validateRepositoryMetadata, and the relationship store
addRelationship) are modelled from the specification; each such
definition carries a doc comment starting with: Modelled from the spec.
-/

/-- The EA layers of the meta model (eaMetaModel.ts, EaLayer). -/
inductive EaLayer where
  | Strategy
  | Business
  | Application
  | Technology
deriving DecidableEq, Repr, Fintype

/-- The eleven loose object types of the meta model (eaMetaModel.ts, OBJECT_TYPES). -/
inductive ObjectType where
  | CapabilityCategory
  | Capability
  | SubCapability
  | BusinessProcess
  | Department
  | Application
  | Technology
  | Programme
  | Project
  | Principle
  | Requirement
deriving DecidableEq, Repr, Fintype

/-- String name of each object type, as it appears in OBJECT_TYPES. -/
def objectTypeName : ObjectType → String
  | .CapabilityCategory => "CapabilityCategory"
  | .Capability => "Capability"
  | .SubCapability => "SubCapability"
  | .BusinessProcess => "BusinessProcess"
  | .Department => "Department"
  | .Application => "Application"
  | .Technology => "Technology"
  | .Programme => "Programme"
  | .Project => "Project"
  | .Principle => "Principle"
  | .Requirement => "Requirement"

/-- The layer recorded for each object type in OBJECT_TYPE_DEFINITIONS. -/
def objectTypeLayer : ObjectType → EaLayer
  | .CapabilityCategory => .Business
  | .Capability => .Business
  | .SubCapability => .Business
  | .BusinessProcess => .Business
  | .Department => .Business
  | .Application => .Application
  | .Technology => .Technology
  | .Programme => .Strategy
  | .Project => .Strategy
  | .Principle => .Strategy
  | .Requirement => .Strategy

/-- The OBJECT_TYPES constant as a list of names, in source order. -/
def OBJECT_TYPE_NAMES : List String :=
  ["CapabilityCategory", "Capability", "SubCapability", "BusinessProcess",
   "Department", "Application", "Technology", "Programme", "Project",
   "Principle", "Requirement"]

/-- isValidObjectType from eaMetaModel.ts: membership of the string in OBJECT_TYPES. -/
def isValidObjectType (s : String) : Bool :=
  OBJECT_TYPE_NAMES.contains s

/-- Parse an object type string back into the closed enumeration
(the typed view of indexing OBJECT_TYPE_DEFINITIONS by a validated string). -/
def parseObjectType (s : String) : Option ObjectType :=
  if s = "CapabilityCategory" then some .CapabilityCategory
  else if s = "Capability" then some .Capability
  else if s = "SubCapability" then some .SubCapability
  else if s = "BusinessProcess" then some .BusinessProcess
  else if s = "Department" then some .Department
  else if s = "Application" then some .Application
  else if s = "Technology" then some .Technology
  else if s = "Programme" then some .Programme
  else if s = "Project" then some .Project
  else if s = "Principle" then some .Principle
  else if s = "Requirement" then some .Requirement
  else none

/-- Modelled from the spec: the ArchitectureScope enumeration of
repositoryMetadata (its source file is not under src/); section 4.6 of the
spec lists the scopes Programme, Business Unit, Domain and Enterprise,
and the policy source compares against exactly the first three strings
with everything else falling through to the default. -/
inductive ArchitectureScope where
  | Enterprise
  | BusinessUnit
  | Domain
  | Programme
deriving DecidableEq, Repr, Fintype

/-- isObjectTypeWritableForScope from architectureScopePolicy: the scope
write policy table over a possibly null/undefined scope. -/
def isObjectTypeWritableForScope
    (architectureScope : Option ArchitectureScope) (objectType : ObjectType) : Bool :=
  let layer := objectTypeLayer objectType
  if architectureScope = some .Programme then
    objectType = ObjectType.Programme || objectType = ObjectType.Project
  else if architectureScope = some .BusinessUnit then
    layer = EaLayer.Business || layer = EaLayer.Application
  else if architectureScope = some .Domain then
    layer = EaLayer.Application || layer = EaLayer.Technology
  else
    true

/-- isAnyObjectTypeWritableForScope from architectureScopePolicy: the
string-typed wrapper; a missing or empty or invalid type string is not
writable. -/
def isAnyObjectTypeWritableForScope
    (architectureScope : Option ArchitectureScope) (objectType : Option String) : Bool :=
  match objectType with
  | none => false
  | some s =>
    if s = "" then false
    else if ¬ isValidObjectType s then false
    else
      match parseObjectType s with
      | some t => isObjectTypeWritableForScope architectureScope t
      | none => false

/-- getReadOnlyReason from architectureScopePolicy: the scope-specific
read-only message, or none when the type is writable under the scope. -/
def getReadOnlyReason
    (architectureScope : Option ArchitectureScope) (objectType : Option String) : Option String :=
  let invalid :=
    match objectType with
    | none => true
    | some s => s = "" || ¬ isValidObjectType s
  if invalid then
    if architectureScope = some .Programme then some "Read-only in Programme scope."
    else if architectureScope = some .BusinessUnit then some "Read-only in Business Unit scope."
    else if architectureScope = some .Domain then some "Read-only in Domain scope."
    else none
  else
    let layer := (objectType.bind parseObjectType).map objectTypeLayer
    if architectureScope = some .BusinessUnit then
      if layer = some EaLayer.Business || layer = some EaLayer.Application then none
      else some "Read-only in Business Unit scope: only Business + Application layers are editable."
    else if architectureScope = some .Domain then
      if layer = some EaLayer.Application || layer = some EaLayer.Technology then none
      else some "Read-only in Domain scope: only Application + Technology layers are editable."
    else if architectureScope = some .Programme then
      if objectType = some "Programme" || objectType = some "Project" then none
      else some "Read-only in Programme scope: only Programme + Project elements are editable."
    else none

example : isObjectTypeWritableForScope (some .Programme) .Technology = false := by decide
example : getReadOnlyReason (some .BusinessUnit) (some "Technology") ≠ none := by decide

/-! ## Attribute values and deterministic rendering

The loose attribute maps of EA objects and relationships hold JSON
values. In this repository every attribute value is a primitive
(string, number, boolean, null) or an array of strings (for example
technologyStack); the embedding fixes that domain so that the
serializers below are plain structural recursions. -/

/-- An attribute value as stored in the loose attribute maps. -/
inductive AttrVal where
  | anull
  | abool (b : Bool)
  | anum (n : Int)
  | astr (s : String)
  | astrArr (xs : List String)
deriving DecidableEq, Repr

/-- An attribute map: JS object fields in insertion order. -/
abbrev AttrMap : Type := List (String × AttrVal)

/-- Escape one character the way JSON.stringify escapes string contents
(quotation mark, backslash, newline, tab, carriage return; other
characters pass through). Character codes are used to avoid quoting noise. -/
def jsonEscapeChar (c : Char) : String :=
  if c.toNat = 34 then String.mk [Char.ofNat 92, Char.ofNat 34]
  else if c.toNat = 92 then String.mk [Char.ofNat 92, Char.ofNat 92]
  else if c.toNat = 10 then String.mk [Char.ofNat 92, Char.ofNat 110]
  else if c.toNat = 9 then String.mk [Char.ofNat 92, Char.ofNat 116]
  else if c.toNat = 13 then String.mk [Char.ofNat 92, Char.ofNat 114]
  else String.singleton c

/-- JSON.stringify of a string value: quote and escape. -/
def jsonQuote (s : String) : String :=
  String.mk [Char.ofNat 34] ++ String.join (s.toList.map jsonEscapeChar) ++ String.mk [Char.ofNat 34]

/-- Join rendered pieces with commas, as Array.prototype.join. -/
def joinComma : List String → String
  | [] => ""
  | [x] => x
  | x :: xs => x ++ "," ++ joinComma xs

/-- Render one attribute value the way both JSON.stringify and
stableStringify render it (they agree on primitives and string arrays). -/
def renderAttrVal : AttrVal → String
  | .anull => "null"
  | .abool b => if b then "true" else "false"
  | .anum n => toString n
  | .astr s => jsonQuote s
  | .astrArr xs => "[" ++ joinComma (xs.map jsonQuote) ++ "]"

/-- Render an attribute map as JSON.stringify does: keys in insertion
order. -/
def renderAttrMap (m : AttrMap) : String :=
  "\x7b" ++ joinComma (m.map (fun p => jsonQuote p.1 ++ ":" ++ renderAttrVal p.2)) ++ "\x7d"

/-- Lexicographic order on character lists by character code. -/
def charListLe : List Char → List Char → Bool
  | [], _ => true
  | _ :: _, [] => false
  | a :: as, b :: bs =>
    if a.toNat < b.toNat then true
    else if b.toNat < a.toNat then false
    else charListLe as bs

/-- Lexicographic string order by character code (localeCompare on the
ASCII keys of this repository agrees with it). -/
def strLe (a b : String) : Bool :=
  charListLe a.toList b.toList

/-- Whitespace test used by trimming (space, tab, line feed, carriage
return — the characters occurring in this repository). -/
def isWhitespaceChar (c : Char) : Bool :=
  c.toNat = 32 || c.toNat = 9 || c.toNat = 10 || c.toNat = 13

/-- Drop leading whitespace characters. -/
def dropLeadingWs : List Char → List Char
  | [] => []
  | c :: cs => if isWhitespaceChar c then dropLeadingWs cs else c :: cs

/-- String.prototype.trim: strip whitespace from both ends. -/
def strTrim (s : String) : String :=
  String.mk ((dropLeadingWs ((dropLeadingWs s.toList).reverse)).reverse)

/-- Insert a field into a key-sorted field list (the key sort of
stableStringify). -/
def insertFieldSorted (x : String × AttrVal) : List (String × AttrVal) → List (String × AttrVal)
  | [] => [x]
  | y :: ys => if strLe x.1 y.1 then x :: y :: ys else y :: insertFieldSorted x ys

/-- Sort attribute fields by key. -/
def sortFieldsByKey (l : List (String × AttrVal)) : List (String × AttrVal) :=
  l.foldr insertFieldSorted []

/-- stableStringify from EaRepositoryProvider applied to an attribute
map: deterministic rendering with the object keys sorted. -/
def stableStringifyAttrs (m : AttrMap) : String :=
  "\x7b" ++
    joinComma ((sortFieldsByKey m).map (fun p => jsonQuote p.1 ++ ":" ++ renderAttrVal p.2)) ++
    "\x7d"

example : stableStringifyAttrs [("b", .anum 1), ("a", .astr "x")] =
    "\x7b\x22a\x22:\x22x\x22,\x22b\x22:1\x7d" := by decide

/-! ## Typed element store (ArchitectureRepository) -/

/-- The strict backend element types. -/
inductive ElementType where
  | Capability
  | BusinessProcess
  | Application
  | Technology
  | Programme
deriving DecidableEq, Repr, Fintype

/-- String name of each strict element type. -/
def elementTypeName : ElementType → String
  | .Capability => "Capability"
  | .BusinessProcess => "BusinessProcess"
  | .Application => "Application"
  | .Technology => "Technology"
  | .Programme => "Programme"

/-- A backend architecture element. The store logic of
ArchitectureRepository inspects only the id and the elementType
discriminant (its runtime type guards test elementType alone), so the
per-type payload fields, which no in-scope operation reads, are omitted
from the embedding. -/
structure BaseArchitectureElement where
  id : String
  elementType : ElementType
deriving DecidableEq, Repr

/-- The five collections of the repository (RepositoryCollectionType). -/
inductive RepositoryCollectionType where
  | capabilities
  | businessProcesses
  | applications
  | technologies
  | programmes
deriving DecidableEq, Repr, Fintype

/-- Collection name string, as used in error messages. -/
def collectionName : RepositoryCollectionType → String
  | .capabilities => "capabilities"
  | .businessProcesses => "businessProcesses"
  | .applications => "applications"
  | .technologies => "technologies"
  | .programmes => "programmes"

/-- expectedElementType from ArchitectureRepository. -/
def expectedElementType : RepositoryCollectionType → ElementType
  | .capabilities => .Capability
  | .businessProcesses => .BusinessProcess
  | .applications => .Application
  | .technologies => .Technology
  | .programmes => .Programme

/-- Membership test of a key in an insertion-ordered string map
(Map.prototype.has). -/
def mapHas {α : Type} (l : List (String × α)) (k : String) : Bool :=
  l.any (fun p => p.1 = k)

/-- Lookup in an insertion-ordered string map (Map.prototype.get). -/
def mapGet {α : Type} : List (String × α) → String → Option α
  | [], _ => none
  | p :: ps, k => if p.1 = k then some p.2 else mapGet ps k

/-- Map.prototype.set: replace in place when the key exists, append
otherwise. -/
def mapSet {α : Type} (l : List (String × α)) (k : String) (v : α) : List (String × α) :=
  if mapHas l k then l.map (fun p => if p.1 = k then (k, v) else p)
  else l ++ [(k, v)]

/-- The in-memory EA repository core: per-collection maps plus the flat
id index, all insertion-ordered. -/
structure ArchitectureRepository where
  byId : List (String × BaseArchitectureElement)
  capabilities : List (String × BaseArchitectureElement)
  businessProcesses : List (String × BaseArchitectureElement)
  applications : List (String × BaseArchitectureElement)
  technologies : List (String × BaseArchitectureElement)
  programmes : List (String × BaseArchitectureElement)
deriving DecidableEq, Repr

/-- The freshly constructed repository (createArchitectureRepository). -/
def emptyArchitectureRepository : ArchitectureRepository :=
  ⟨[], [], [], [], [], []⟩

/-- Result type of addElement: { ok: true } or { ok: false, error }. -/
inductive RepositoryResult where
  | ok
  | err (error : String)
deriving DecidableEq, Repr

/-- addElement from ArchitectureRepository: reject a duplicate id found
anywhere in the flat index, reject an elementType that does not match
the collection, then run the collection type guard (which re-tests the
elementType discriminant) and insert into the typed collection and the
flat index. The returned repository is unchanged on every rejection. -/
def addElement (repo : ArchitectureRepository) (type : RepositoryCollectionType)
    (element : BaseArchitectureElement) : ArchitectureRepository × RepositoryResult :=
  if mapHas repo.byId element.id then
    (repo, .err ("Duplicate id: " ++ element.id))
  else if element.elementType ≠ expectedElementType type then
    (repo, .err ("Rejected insert: elementType "
      ++ elementTypeName element.elementType
      ++ " does not match collection " ++ collectionName type
      ++ " (expected " ++ elementTypeName (expectedElementType type) ++ ")."))
  else
    match type with
    | .capabilities =>
      if element.elementType ≠ .Capability then
        (repo, .err "Rejected insert: element is not a Capability.")
      else
        ({ repo with capabilities := mapSet repo.capabilities element.id element,
                     byId := mapSet repo.byId element.id element }, .ok)
    | .businessProcesses =>
      if element.elementType ≠ .BusinessProcess then
        (repo, .err "Rejected insert: element is not a BusinessProcess.")
      else
        ({ repo with businessProcesses := mapSet repo.businessProcesses element.id element,
                     byId := mapSet repo.byId element.id element }, .ok)
    | .applications =>
      if element.elementType ≠ .Application then
        (repo, .err "Rejected insert: element is not an Application.")
      else
        ({ repo with applications := mapSet repo.applications element.id element,
                     byId := mapSet repo.byId element.id element }, .ok)
    | .technologies =>
      if element.elementType ≠ .Technology then
        (repo, .err "Rejected insert: element is not a Technology.")
      else
        ({ repo with technologies := mapSet repo.technologies element.id element,
                     byId := mapSet repo.byId element.id element }, .ok)
    | .programmes =>
      if element.elementType ≠ .Programme then
        (repo, .err "Rejected insert: element is not a Programme.")
      else
        ({ repo with programmes := mapSet repo.programmes element.id element,
                     byId := mapSet repo.byId element.id element }, .ok)

/-- getElementsByType from ArchitectureRepository: the values of the
typed collection, in insertion order. -/
def getElementsByType (repo : ArchitectureRepository)
    (type : RepositoryCollectionType) : List BaseArchitectureElement :=
  match type with
  | .capabilities => repo.capabilities.map (fun p => p.2)
  | .businessProcesses => repo.businessProcesses.map (fun p => p.2)
  | .applications => repo.applications.map (fun p => p.2)
  | .technologies => repo.technologies.map (fun p => p.2)
  | .programmes => repo.programmes.map (fun p => p.2)

/-- getElementById from ArchitectureRepository. -/
def getElementById (repo : ArchitectureRepository) (id : String) :
    Option BaseArchitectureElement :=
  mapGet repo.byId id

/-! ## Relationship semantics table and relationship store -/

/-- A relationship endpoint rule: allowed source and target element
types, by name (RelationshipSemantics.ts). -/
structure RelationshipEndpointRule where
  fromTypes : List String
  toTypes : List String
deriving DecidableEq, Repr

/-- RELATIONSHIP_ENDPOINT_RULES lookup (getRelationshipEndpointRule):
the key is trimmed, unknown keys give none. -/
def getRelationshipEndpointRule (type : String) : Option RelationshipEndpointRule :=
  let key := strTrim type
  if key = "DECOMPOSES_TO" then some ⟨["Capability"], ["BusinessProcess"]⟩
  else if key = "REALIZED_BY" then some ⟨["BusinessProcess"], ["Application"]⟩
  else if key = "DEPENDS_ON" then some ⟨["Application"], ["Application"]⟩
  else if key = "HOSTED_ON" then some ⟨["Application"], ["Technology"]⟩
  else if key = "IMPACTS" then some ⟨["Programme"], ["Capability", "Application", "Technology"]⟩
  else none

/-- isKnownRelationshipType from RelationshipSemantics.ts. -/
def isKnownRelationshipType (type : String) : Bool :=
  (getRelationshipEndpointRule type).isSome

/-- A typed relationship record as built by the governance projection. -/
structure RelationshipRecord where
  id : String
  relationshipType : String
  sourceElementId : String
  sourceElementType : String
  targetElementId : String
  targetElementType : String
deriving DecidableEq, Repr

/-- The relationship store: the element repository it validates against
plus the ordered sequence of accepted relationships. -/
structure RelationshipStore where
  repo : ArchitectureRepository
  relationships : List RelationshipRecord
deriving DecidableEq, Repr

/-- createRelationshipRepository: an empty store over a repository. -/
def createRelationshipRepository (repo : ArchitectureRepository) : RelationshipStore :=
  ⟨repo, []⟩

/-- The typed addRelationship failure taxonomy. -/
inductive AddRelationshipError where
  | UnknownEndpoint (sourceId targetId : String)
  | UnknownType (relationshipType : String)
  | EndpointTypeMismatch (relationshipType sourceId targetId : String)
deriving DecidableEq, Repr

/-- Human-readable message of an addRelationship failure, carrying the
offending relationship type and both endpoint ids. -/
def addRelationshipErrorMessage : AddRelationshipError → String
  | .UnknownEndpoint s t => "Unknown endpoint: " ++ s ++ " -> " ++ t
  | .UnknownType ty => "Unknown relationship type: " ++ ty
  | .EndpointTypeMismatch ty s t =>
    "Endpoint type mismatch for " ++ ty ++ ": " ++ s ++ " -> " ++ t

/-- Result of addRelationship: the (possibly extended) store and either
the accepted record id or a typed error. -/
inductive AddRelationshipResult where
  | ok (id : String)
  | error (e : AddRelationshipError)
deriving DecidableEq, Repr

/-- Modelled from the spec: addRelationship of the Relationship Store
(its source file, the backend RelationshipRepository, is not under
src/). Spec section 4.3 fixes the validation order: (1) both endpoint
ids must resolve to elements already present in the Element Store, else
UnknownEndpoint; (2) the relationship type must be a known type, else
UnknownType; (3) the resolved source/target element types must be
members of the rule allowed sets, else EndpointTypeMismatch; on success
the record is appended to the ordered sequence. The store is returned
unchanged on every failure. -/
def addRelationship (store : RelationshipStore) (record : RelationshipRecord) :
    RelationshipStore × AddRelationshipResult :=
  match getElementById store.repo record.sourceElementId,
        getElementById store.repo record.targetElementId with
  | some src, some tgt =>
    match getRelationshipEndpointRule record.relationshipType with
    | none => (store, .error (.UnknownType record.relationshipType))
    | some rule =>
      if rule.fromTypes.contains (elementTypeName src.elementType)
          && rule.toTypes.contains (elementTypeName tgt.elementType) then
        ({ store with relationships := store.relationships ++ [record] }, .ok record.id)
      else
        (store, .error (.EndpointTypeMismatch record.relationshipType
          record.sourceElementId record.targetElementId))
  | _, _ => (store, .error (.UnknownEndpoint record.sourceElementId record.targetElementId))

/-- Boolean success test of an addRelationship outcome. -/
def addRelationshipOk (store : RelationshipStore) (record : RelationshipRecord) : Bool :=
  match (addRelationship store record).2 with
  | .ok _ => true
  | .error _ => false

/-! ## The loose EA repository container and snapshots -/

/-- A loose EA object: globally unique id, loose type string, loose
attribute map. -/
structure EaObject where
  id : String
  type : String
  attributes : AttrMap
deriving DecidableEq, Repr

/-- A loose EA relationship: endpoint ids, loose type string, loose
attribute map. -/
structure EaRelationship where
  fromId : String
  toId : String
  type : String
  attributes : AttrMap
deriving DecidableEq, Repr

/-- Modelled from the spec: the EaRepository container class (its source
file is not under src/; the provider uses it as an insertion-ordered
objects map keyed by id plus a relationships array, spec section 3). -/
structure EaRepository where
  objects : List (String × EaObject)
  relationships : List EaRelationship
deriving DecidableEq, Repr

/-- The governance modes (GOVERNANCE_MODES of repositoryMetadata; the
provider compares against Strict and Advisory, anything else gates
nothing). -/
inductive GovernanceMode where
  | Strict
  | Advisory
  | NoGating
deriving DecidableEq, Repr, Fintype

/-- String form of a governance mode, as stored in metadata. -/
def governanceModeName : GovernanceMode → String
  | .Strict => "Strict"
  | .Advisory => "Advisory"
  | .NoGating => "None"

/-- String form of an architecture scope, as stored in metadata. -/
def architectureScopeName : ArchitectureScope → String
  | .Enterprise => "Enterprise"
  | .BusinessUnit => "Business Unit"
  | .Domain => "Domain"
  | .Programme => "Programme"

/-- Repository metadata (EaRepositoryMetadata of repositoryMetadata):
primitives only, per the shallow-freeze comment in the provider. -/
structure EaRepositoryMetadata where
  repositoryName : String
  organizationName : String
  architectureScope : ArchitectureScope
  referenceFramework : String
  governanceMode : GovernanceMode
  lifecycleCoverage : String
  timeHorizon : String
  createdAt : String
deriving DecidableEq, Repr

/-- Modelled from the spec: validateRepositoryMetadata (its source file
is not under src/). Spec section 6 requires the metadata to satisfy the
Scope/Metadata schema before a snapshot is accepted; the creation form
requires non-blank repository and organization names, and the enum
fields are already well-typed here. -/
def validateRepositoryMetadata (m : EaRepositoryMetadata) : Bool :=
  strTrim m.repositoryName ≠ "" && strTrim m.organizationName ≠ ""

/-- A serialized repository snapshot (SerializedRepository): version 1,
metadata, objects array, relationships array, updatedAt stamp. -/
structure SerializedRepository where
  version : Nat
  metadata : EaRepositoryMetadata
  objects : List EaObject
  relationships : List EaRelationship
  updatedAt : String
deriving DecidableEq, Repr

/-- serializeRepository from EaRepositoryProvider. The source stamps
updatedAt with the wall clock (new Date().toISOString()); the embedding
passes that stamp explicitly as the now argument. The object and
relationship spreads copy every field, which is the identity here. -/
def serializeRepository (repo : EaRepository) (metadata : EaRepositoryMetadata)
    (now : String) : SerializedRepository :=
  { version := 1
    metadata := metadata
    objects := repo.objects.map (fun p =>
      { id := p.2.id, type := p.2.type, attributes := p.2.attributes })
    relationships := repo.relationships.map (fun r =>
      { fromId := r.fromId, toId := r.toId, type := r.type, attributes := r.attributes })
    updatedAt := now }

/-- Render repository metadata as JSON.stringify does: keys in the
construction order of the metadata record. -/
def renderMetadata (m : EaRepositoryMetadata) : String :=
  "\x7b" ++ joinComma
    [jsonQuote "repositoryName" ++ ":" ++ jsonQuote m.repositoryName,
     jsonQuote "organizationName" ++ ":" ++ jsonQuote m.organizationName,
     jsonQuote "architectureScope" ++ ":" ++ jsonQuote (architectureScopeName m.architectureScope),
     jsonQuote "referenceFramework" ++ ":" ++ jsonQuote m.referenceFramework,
     jsonQuote "governanceMode" ++ ":" ++ jsonQuote (governanceModeName m.governanceMode),
     jsonQuote "lifecycleCoverage" ++ ":" ++ jsonQuote m.lifecycleCoverage,
     jsonQuote "timeHorizon" ++ ":" ++ jsonQuote m.timeHorizon,
     jsonQuote "createdAt" ++ ":" ++ jsonQuote m.createdAt] ++ "\x7d"

/-- Render one serialized object ( \x7b id, type, attributes \x7d in
insertion order). -/
def renderEaObject (o : EaObject) : String :=
  "\x7b" ++ joinComma
    [jsonQuote "id" ++ ":" ++ jsonQuote o.id,
     jsonQuote "type" ++ ":" ++ jsonQuote o.type,
     jsonQuote "attributes" ++ ":" ++ renderAttrMap o.attributes] ++ "\x7d"

/-- Render one serialized relationship. -/
def renderEaRelationship (r : EaRelationship) : String :=
  "\x7b" ++ joinComma
    [jsonQuote "fromId" ++ ":" ++ jsonQuote r.fromId,
     jsonQuote "toId" ++ ":" ++ jsonQuote r.toId,
     jsonQuote "type" ++ ":" ++ jsonQuote r.type,
     jsonQuote "attributes" ++ ":" ++ renderAttrMap r.attributes] ++ "\x7d"

/-- JSON.stringify of a serialized snapshot: the byte string persisted
to storage and compared for change detection. Keys appear in the
insertion order of the serializeRepository object literal. -/
def renderSerializedRepository (s : SerializedRepository) : String :=
  "\x7b" ++ joinComma
    [jsonQuote "version" ++ ":" ++ toString s.version,
     jsonQuote "metadata" ++ ":" ++ renderMetadata s.metadata,
     jsonQuote "objects" ++ ":" ++ ("[" ++ joinComma (s.objects.map renderEaObject) ++ "]"),
     jsonQuote "relationships" ++ ":" ++
       ("[" ++ joinComma (s.relationships.map renderEaRelationship) ++ "]"),
     jsonQuote "updatedAt" ++ ":" ++ jsonQuote s.updatedAt] ++ "\x7d"

/-- Modelled from the spec: the EaRepository constructor rebuilds the
objects map from the objects array keyed by id; an insertion with a
colliding id is rejected (spec section 3), surfacing as a thrown error
that tryDeserializeRepository converts into a failure. -/
def buildObjectsMap : List (String × EaObject) → List EaObject → Option (List (String × EaObject))
  | acc, [] => some acc
  | acc, o :: os =>
    if mapHas acc o.id then none
    else buildObjectsMap (acc ++ [(o.id, o)]) os

/-- tryDeserializeRepository from EaRepositoryProvider, at the level of
the already-parsed snapshot value: validate the metadata, then rebuild
the EaRepository container; none models the { ok: false } branches. -/
def tryDeserializeRepository (s : SerializedRepository) :
    Option (EaRepository × EaRepositoryMetadata) :=
  if validateRepositoryMetadata s.metadata then
    match buildObjectsMap [] s.objects with
    | some objectsMap => some ({ objects := objectsMap, relationships := s.relationships }, s.metadata)
    | none => none
  else none

/-! ## Scope-gated model updates (setEaRepository) -/

/-- The per-id check inside hasReadOnlyObjectChanges: when either side
of the pair has a non-writable (or missing) type, flag any add/remove,
any type change and any serialized-attribute change. -/
def readOnlyChangeCheck (architectureScope : Option ArchitectureScope)
    (a b : Option EaObject) : Bool :=
  let writableA := isAnyObjectTypeWritableForScope architectureScope (a.map (fun o => o.type))
  let writableB := isAnyObjectTypeWritableForScope architectureScope (b.map (fun o => o.type))
  if !writableA || !writableB then
    match a, b with
    | some x, some y =>
      if x.type ≠ y.type then true
      else if stableStringifyAttrs x.attributes ≠ stableStringifyAttrs y.attributes then true
      else false
    | _, _ => true
  else false

/-- hasReadOnlyObjectChanges from EaRepositoryProvider: only the
Business Unit and Domain scopes are inspected; over the union of ids the
per-id check is applied to the object on each side. -/
def hasReadOnlyObjectChanges (prev next : Option EaRepository)
    (architectureScope : Option ArchitectureScope) : Bool :=
  if architectureScope ≠ some .BusinessUnit ∧ architectureScope ≠ some .Domain then false
  else
    match prev, next with
    | some p, some n =>
      let ids := ((p.objects.map (fun q => q.1)) ++ (n.objects.map (fun q => q.1))).dedup
      ids.any (fun id =>
        readOnlyChangeCheck architectureScope (mapGet p.objects id) (mapGet n.objects id))
    | _, _ => false

/-- The warning surfaced when a scoped update is rejected (the Domain
message for Domain scope, the Business Unit message otherwise). -/
def scopeRejectionMessage (architectureScope : Option ArchitectureScope) : String :=
  if architectureScope = some .Domain then
    "Read-only in Domain scope: only Application + Technology layers are editable."
  else
    "Read-only in Business Unit scope: only Business + Application layers are editable."

/-- setEaRepository from EaRepositoryProvider, as a pure step on the
resolved value: clearing always passes; a change flagged by
hasReadOnlyObjectChanges keeps the previous model and surfaces the
scope-specific warning; anything else is accepted silently. -/
def setEaRepositoryStep (prev : Option EaRepository) (resolved : Option EaRepository)
    (architectureScope : Option ArchitectureScope) :
    Option EaRepository × Option String :=
  match resolved with
  | none => (none, none)
  | some n =>
    if hasReadOnlyObjectChanges prev (some n) architectureScope then
      (prev, some (scopeRejectionMessage architectureScope))
    else (some n, none)

/-! ## Repository history (undo/redo) and the settle effect -/

/-- HISTORY_LIMIT from EaRepositoryProvider. -/
def HISTORY_LIMIT : Nat := 50

/-- Push a snapshot onto a bounded stack, evicting the oldest entry on
overflow. Stacks are held most-recent-first: the JS undo array pushes
and pops at its back and evicts with shift at its front, the JS redo
array unshifts and shifts at its front and evicts with pop at its back;
in both cases the list head below is the most recent entry and dropLast
evicts the oldest. -/
def pushCapped (x : SerializedRepository) (l : List SerializedRepository) :
    List SerializedRepository :=
  let l' := x :: l
  if l'.length > HISTORY_LIMIT then l'.dropLast else l'

/-- The provider state touched by history tracking: the live model and
metadata, the two bounded stacks, the last-committed serialization, the
history-suppression flag and the two UI booleans. -/
structure ProviderState where
  repo : Option EaRepository
  metadata : Option EaRepositoryMetadata
  undoStack : List SerializedRepository
  redoStack : List SerializedRepository
  lastSerialized : Option SerializedRepository
  suppressHistory : Bool
  canUndo : Bool
  canRedo : Bool
deriving DecidableEq, Repr

/-- The settle effect of EaRepositoryProvider (its history-tracking
part): with no repository or metadata the stored slot is dropped and the
last serialization forgotten; otherwise the new serialization is
computed, and, unless the suppression flag is set, a differing previous
serialization is pushed onto the undo stack and the redo stack cleared;
finally the suppression flag is reset and the new serialization
recorded. Stack entries are compared and stored as snapshots; the source
stores their JSON byte strings, and comparison happens on the rendered
bytes exactly as in the source. -/
def settleEffect (st : ProviderState) (now : String) : ProviderState :=
  match st.repo, st.metadata with
  | some repo, some metadata =>
    let next := serializeRepository repo metadata now
    let st1 :=
      if !st.suppressHistory then
        match st.lastSerialized with
        | some prev =>
          if renderSerializedRepository prev ≠ renderSerializedRepository next then
            { st with undoStack := pushCapped prev st.undoStack
                      redoStack := []
                      canUndo := true
                      canRedo := false }
          else st
        | none => st
      else st
    { st1 with suppressHistory := false, lastSerialized := some next }
  | _, _ => { st with lastSerialized := none }

/-- A committed model edit: the scope gate let the new repository value
through, and the settle effect then ran. -/
def userEdit (st : ProviderState) (newRepo : EaRepository) (now : String) : ProviderState :=
  settleEffect { st with repo := some newRepo } now

/-- undo from EaRepositoryProvider followed by the settle effect it
triggers: pop the most recent undo entry (failing on an empty stack
without touching the model), push the current serialization onto the
bounded redo stack, apply the popped snapshot (failing if it does not
deserialize), then let the suppressed settle effect re-serialize the
applied model. -/
def undoStep (st : ProviderState) (now : String) : ProviderState × Bool :=
  match st.undoStack with
  | [] => ({ st with canUndo := false }, false)
  | prev :: rest =>
    let redoPushed :=
      match st.lastSerialized with
      | some current => pushCapped current st.redoStack
      | none => st.redoStack
    let st1 := { st with undoStack := rest, redoStack := redoPushed }
    match tryDeserializeRepository prev with
    | none => (st1, false)
    | some (r, m) =>
      let st2 := { st1 with repo := some r
                            metadata := some m
                            suppressHistory := true
                            lastSerialized := some prev
                            canUndo := !rest.isEmpty
                            canRedo := !redoPushed.isEmpty }
      (settleEffect st2 now, true)

/-- redo from EaRepositoryProvider followed by the settle effect it
triggers; symmetric to undo. -/
def redoStep (st : ProviderState) (now : String) : ProviderState × Bool :=
  match st.redoStack with
  | [] => ({ st with canRedo := false }, false)
  | next :: rest =>
    let undoPushed :=
      match st.lastSerialized with
      | some current => pushCapped current st.undoStack
      | none => st.undoStack
    let st1 := { st with redoStack := rest, undoStack := undoPushed }
    match tryDeserializeRepository next with
    | none => (st1, false)
    | some (r, m) =>
      let st2 := { st1 with repo := some r
                            metadata := some m
                            suppressHistory := true
                            lastSerialized := some next
                            canUndo := !undoPushed.isEmpty
                            canRedo := !rest.isEmpty }
      (settleEffect st2 now, true)

/-- Iterate undo. -/
def runUndo (st : ProviderState) (now : String) : Nat → ProviderState
  | 0 => st
  | n + 1 => runUndo (undoStep st now).1 now n

/-- Iterate redo. -/
def runRedo (st : ProviderState) (now : String) : Nat → ProviderState
  | 0 => st
  | n + 1 => runRedo (redoStep st now).1 now n

/-! ## Governance debt summary and the mode gates -/

/-- GovernanceDebtSummary from governanceValidation. -/
structure GovernanceDebtSummary where
  mandatoryFindingCount : Nat
  relationshipErrorCount : Nat
  relationshipWarningCount : Nat
  invalidRelationshipInsertCount : Nat
  lifecycleTagMissingCount : Nat
  total : Nat
deriving DecidableEq, Repr

/-- The summary as assembled at the end of buildGovernanceDebt: the
total is the arithmetic sum of the five counts. -/
def mkGovernanceSummary (mandatory relErr relWarn invalidIns lifecycleMissing : Nat) :
    GovernanceDebtSummary :=
  { mandatoryFindingCount := mandatory
    relationshipErrorCount := relErr
    relationshipWarningCount := relWarn
    invalidRelationshipInsertCount := invalidIns
    lifecycleTagMissingCount := lifecycleMissing
    total := mandatory + relErr + relWarn + invalidIns + lifecycleMissing }

/-- The debt fingerprint key of the settle effect: the five counts
joined with a vertical bar, in the order written in the source
(mandatory, invalid inserts, relationship errors, relationship
warnings, lifecycle missing). -/
def debtFingerprint (s : GovernanceDebtSummary) : String :=
  toString s.mandatoryFindingCount ++ "|" ++ toString s.invalidRelationshipInsertCount
    ++ "|" ++ toString s.relationshipErrorCount ++ "|" ++ toString s.relationshipWarningCount
    ++ "|" ++ toString s.lifecycleTagMissingCount

/-- The Strict blocking predicate of the settle effect: any mandatory
finding, relationship error, invalid relationship insert or missing
lifecycle tag blocks; relationship warnings are not consulted. -/
def strictBlocked (s : GovernanceDebtSummary) : Bool :=
  decide (s.mandatoryFindingCount > 0) || decide (s.relationshipErrorCount > 0)
    || decide (s.invalidRelationshipInsertCount > 0)
    || decide (s.lifecycleTagMissingCount > 0)

/-- The gate state kept between settles in Strict mode: the last blocked
fingerprint and whether the blocking dialog is open. -/
structure StrictGateState where
  lastSaveBlockedKey : Option String
  modalOpen : Bool
deriving DecidableEq, Repr

/-- Outcome of one Strict-mode settle: the next gate state, whether the
snapshot was persisted to durable storage, whether a save.blocked audit
entry was appended, and whether the re-enabled notice was shown. -/
structure StrictSettleResult where
  state : StrictGateState
  persisted : Bool
  loggedBlocked : Bool
  reEnabledNotice : Bool
deriving DecidableEq, Repr

/-- The Strict branch of the settle effect: while blocked the effect
returns before the storage write, appending a save.blocked entry and
(re)opening the single dialog only when the fingerprint changed; once
the blocking counts are clear, a previously blocked gate is reset with a
success notice and the storage write proceeds. -/
def strictSettle (st : StrictGateState) (s : GovernanceDebtSummary) : StrictSettleResult :=
  let key := debtFingerprint s
  if strictBlocked s then
    if st.lastSaveBlockedKey ≠ some key then
      { state := { lastSaveBlockedKey := some key, modalOpen := true }
        persisted := false, loggedBlocked := true, reEnabledNotice := false }
    else
      { state := st, persisted := false, loggedBlocked := false, reEnabledNotice := false }
  else
    if st.lastSaveBlockedKey.isSome then
      { state := { lastSaveBlockedKey := none, modalOpen := false }
        persisted := true, loggedBlocked := false, reEnabledNotice := true }
    else
      { state := st, persisted := true, loggedBlocked := false, reEnabledNotice := false }

/-- Outcome of one Advisory-mode settle: the next last-warned
fingerprint, whether a save.warned audit entry was appended, and whether
the snapshot was persisted (always). -/
structure AdvisorySettleResult where
  lastWarnKey : Option String
  loggedWarned : Bool
  persisted : Bool
deriving DecidableEq, Repr

/-- The Advisory branch of the settle effect: with positive total and a
fingerprint differing from the last warned one, warn and append a
save.warned entry; a zero-total settle clears the last warned
fingerprint; the storage write always proceeds. -/
def advisorySettle (lastWarnKey : Option String) (s : GovernanceDebtSummary) :
    AdvisorySettleResult :=
  let key := debtFingerprint s
  if s.total > 0 then
    if lastWarnKey ≠ some key then
      { lastWarnKey := some key, loggedWarned := true, persisted := true }
    else
      { lastWarnKey := lastWarnKey, loggedWarned := false, persisted := true }
  else
    { lastWarnKey := none, loggedWarned := false, persisted := true }

/-- Run a sequence of Advisory settles, collecting the fingerprints of
the appended save.warned entries in order. -/
def advisoryRun (lastWarnKey : Option String) :
    List GovernanceDebtSummary → Option String × List String
  | [] => (lastWarnKey, [])
  | s :: rest =>
    let r := advisorySettle lastWarnKey s
    let tail := advisoryRun r.lastWarnKey rest
    (tail.1, (if r.loggedWarned then [debtFingerprint s] else []) ++ tail.2)

/-! ## The governance debt projection (buildGovernanceDebt) -/

/-- toBackendElementType from governanceValidation: the fixed lossy
type-collapsing map; unmapped types pass through unchanged. -/
def toBackendElementType (eaType : String) : String :=
  if eaType = "Capability" || eaType = "SubCapability" || eaType = "CapabilityCategory" then
    "Capability"
  else if eaType = "BusinessProcess" then "BusinessProcess"
  else if eaType = "Application" then "Application"
  else if eaType = "Technology" then "Technology"
  else if eaType = "Programme" then "Programme"
  else eaType

/-- One iteration of the element-projection loop of buildGovernanceDebt:
map the loose type to its strict collection and insert the projected
element (the source also fills the governed payload fields with
defaults; those fields are not read by any store operation modelled
here, see BaseArchitectureElement). Unmapped types are skipped. -/
def projectObjectStep (repo : ArchitectureRepository) (obj : EaObject) :
    ArchitectureRepository :=
  if obj.type = "Capability" || obj.type = "CapabilityCategory" || obj.type = "SubCapability" then
    (addElement repo .capabilities { id := obj.id, elementType := .Capability }).1
  else if obj.type = "Application" then
    (addElement repo .applications { id := obj.id, elementType := .Application }).1
  else if obj.type = "Technology" then
    (addElement repo .technologies { id := obj.id, elementType := .Technology }).1
  else if obj.type = "BusinessProcess" then
    (addElement repo .businessProcesses { id := obj.id, elementType := .BusinessProcess }).1
  else if obj.type = "Programme" then
    (addElement repo .programmes { id := obj.id, elementType := .Programme }).1
  else repo

/-- The element-projection loop of buildGovernanceDebt over the source
objects map. -/
def buildElementStore (eaRepository : EaRepository) : ArchitectureRepository :=
  eaRepository.objects.foldl (fun r p => projectObjectStep r p.2) emptyArchitectureRepository

/-- supportedElementIds of buildGovernanceDebt: every id found in the
five typed collections. -/
def supportedElementIds (repo : ArchitectureRepository) : List String :=
  ((((getElementsByType repo .capabilities
    ++ getElementsByType repo .businessProcesses)
    ++ getElementsByType repo .applications)
    ++ getElementsByType repo .technologies)
    ++ getElementsByType repo .programmes).map (fun e => e.id)

/-- State threaded through the relationship-projection loop: the typed
relationship store and the collected insert-failure messages. -/
structure RelProjectionState where
  store : RelationshipStore
  invalidRelationshipInserts : List String
deriving DecidableEq, Repr

/-- The typed record built for one source relationship at index i, as in
buildGovernanceDebt (endpoint types mapped through toBackendElementType
from the loose objects map; a missing object maps the empty string). -/
def buildRelRecord (eaRepository : EaRepository) (i : Nat) (rel : EaRelationship) :
    RelationshipRecord :=
  let sourceId := strTrim rel.fromId
  let targetId := strTrim rel.toId
  let sourceTypeStr :=
    match mapGet eaRepository.objects sourceId with
    | some o => o.type
    | none => ""
  let targetTypeStr :=
    match mapGet eaRepository.objects targetId with
    | some o => o.type
    | none => ""
  { id := "rel_" ++ toString i
    relationshipType := strTrim rel.type
    sourceElementId := sourceId
    sourceElementType := strTrim (toBackendElementType sourceTypeStr)
    targetElementId := targetId
    targetElementType := strTrim (toBackendElementType targetTypeStr) }

/-- One iteration of the relationship-projection loop of
buildGovernanceDebt: a relationship whose trimmed endpoint ids are blank
or do not both appear among the supported element ids is skipped
outright; otherwise the typed record is inserted and a failure is
collected verbatim into invalidRelationshipInserts. -/
def projectRelationshipStep (eaRepository : EaRepository) (supported : List String)
    (st : RelProjectionState) (i : Nat) (rel : EaRelationship) : RelProjectionState :=
  let sourceId := strTrim rel.fromId
  let targetId := strTrim rel.toId
  if sourceId = "" || targetId = "" then st
  else if !supported.contains sourceId || !supported.contains targetId then st
  else
    let record := buildRelRecord eaRepository i rel
    match addRelationship st.store record with
    | (store', .ok _) => { st with store := store' }
    | (store', .error e) =>
      { store := store'
        invalidRelationshipInserts := st.invalidRelationshipInserts ++
          [(if record.relationshipType = "" then "(unknown)" else record.relationshipType)
            ++ " " ++ sourceId ++ " -> " ++ targetId ++ ": " ++ addRelationshipErrorMessage e] }

/-- The relationship-projection loop of buildGovernanceDebt, threading
the enumeration index used for generated record ids. -/
def projectRelationshipLoop (eaRepository : EaRepository) (supported : List String)
    (st : RelProjectionState) (i : Nat) : List EaRelationship → RelProjectionState
  | [] => st
  | rel :: rest =>
    projectRelationshipLoop eaRepository supported
      (projectRelationshipStep eaRepository supported st i rel) (i + 1) rest

/-- The relationship phase of buildGovernanceDebt: project the element
store, gather the supported ids, and run the loop from the empty
relationship store. -/
def buildRelationshipPhase (eaRepository : EaRepository) : RelProjectionState :=
  let repo := buildElementStore eaRepository
  projectRelationshipLoop eaRepository (supportedElementIds repo)
    { store := createRelationshipRepository repo, invalidRelationshipInserts := [] } 0
    eaRepository.relationships

/-! ## Helper lemmas on insertion-ordered maps -/

/-- A key found by mapGet is among the keys. -/
theorem mapGet_mem_keys {α : Type} :
    ∀ (l : List (String × α)) (k : String) (v : α),
      mapGet l k = some v → k ∈ l.map (fun p => p.1)
  | [], _, _, h => by simp [mapGet] at h
  | p :: ps, k, v, h => by
    by_cases hk : p.1 = k
    · simp [hk]
    · simp only [mapGet, hk, if_false] at h
      simp [mapGet_mem_keys ps k v h]

/-- mapHas finds a key just written by mapSet. -/
theorem mapHas_mapSet {α : Type} (l : List (String × α)) (k : String) (v : α) :
    mapHas (mapSet l k v) k = true := by
  unfold mapSet
  split
  · rename_i hmem
    unfold mapHas at hmem ⊢
    simp only [List.any_eq_true] at hmem ⊢
    obtain ⟨p, hp, hpk⟩ := hmem
    refine ⟨if p.1 = k then (k, v) else p, List.mem_map_of_mem _ hp, ?_⟩
    simp only [decide_eq_true_eq] at hpk
    simp [hpk]
  · unfold mapHas
    simp [List.any_append]

/-- mapHas is membership among the keys. -/
theorem mapHas_iff_mem {α : Type} (l : List (String × α)) (k : String) :
    mapHas l k = true ↔ k ∈ l.map (fun p => p.1) := by
  unfold mapHas
  simp [List.any_eq_true]

/-! ## Claim theorems -/

/-- C10: for every architecture scope (including the null/undefined
one) and every valid object type, getReadOnlyReason returns no message
exactly when isObjectTypeWritableForScope deems the type writable: the
two scope-policy functions never disagree. -/
theorem readOnlyReason_agrees_with_writable :
    ∀ (scope : Option ArchitectureScope) (t : ObjectType),
      (getReadOnlyReason scope (some (objectTypeName t)) = none
        ↔ isObjectTypeWritableForScope scope t = true) := by
  decide

/-- A successful addElement records the element in the flat id index. -/
theorem addElement_ok_byId (repo : ArchitectureRepository) (t : RepositoryCollectionType)
    (e : BaseArchitectureElement) (repo' : ArchitectureRepository)
    (h : addElement repo t e = (repo', .ok)) :
    repo'.byId = mapSet repo.byId e.id e := by
  unfold addElement at h
  split at h
  · exact RepositoryResult.noConfusion (congrArg Prod.snd h)
  · split at h
    · exact RepositoryResult.noConfusion (congrArg Prod.snd h)
    · split at h <;> split at h
      all_goals
        first
          | exact RepositoryResult.noConfusion (congrArg Prod.snd h)
          | (have hfst : _ = repo' := congrArg Prod.fst h
             subst hfst
             rfl)

/-- C6: inserting an element whose id was already accepted into any
collection fails with the duplicate-id error, and the repository (its
typed collections and its flat index) is returned unchanged. -/
theorem addElement_duplicate_id_rejected
    (repo : ArchitectureRepository) (t1 : RepositoryCollectionType)
    (e1 : BaseArchitectureElement) (repo' : ArchitectureRepository)
    (t2 : RepositoryCollectionType) (e2 : BaseArchitectureElement)
    (h1 : addElement repo t1 e1 = (repo', .ok))
    (h2 : e2.id = e1.id) :
    addElement repo' t2 e2 = (repo', .err ("Duplicate id: " ++ e2.id)) := by
  have hById : repo'.byId = mapSet repo.byId e1.id e1 :=
    addElement_ok_byId repo t1 e1 repo' h1
  have hHas : mapHas repo'.byId e2.id = true := by
    rw [hById, h2]
    exact mapHas_mapSet repo.byId e1.id e1
  unfold addElement
  simp [hHas]

/-- Witness for C6 at a concrete input: an Application accepted under
id app1, then a Technology reusing id app1 is rejected and the store is
untouched. -/
theorem addElement_duplicate_id_rejected_witness :
    addElement emptyArchitectureRepository .applications ⟨"app1", .Application⟩
        = ((addElement emptyArchitectureRepository .applications ⟨"app1", .Application⟩).1, .ok)
      ∧ ("app1" : String) = "app1"
      ∧ addElement (addElement emptyArchitectureRepository .applications ⟨"app1", .Application⟩).1
          .technologies ⟨"app1", .Technology⟩
        = ((addElement emptyArchitectureRepository .applications ⟨"app1", .Application⟩).1,
           .err ("Duplicate id: " ++ "app1")) :=
  ⟨by decide, rfl,
   addElement_duplicate_id_rejected emptyArchitectureRepository .applications
     ⟨"app1", .Application⟩
     (addElement emptyArchitectureRepository .applications ⟨"app1", .Application⟩).1
     .technologies ⟨"app1", .Technology⟩ (by decide) rfl⟩

/-- C1 counterexample: a debt summary whose only positive count is
relationshipWarningCount has total 1 > 0, yet the Strict settle, from a
previously compliant gate, does not withhold persistence, never blocks,
and appends no save.blocked entry — the claimed equivalence between
withholding and total > 0 is false at this input. -/
theorem strict_gate_total_iff_counterexample :
    (mkGovernanceSummary 0 0 1 0 0).total = 1
      ∧ (strictSettle ⟨none, false⟩ (mkGovernanceSummary 0 0 1 0 0)).persisted = true
      ∧ strictBlocked (mkGovernanceSummary 0 0 1 0 0) = false
      ∧ (strictSettle ⟨none, false⟩ (mkGovernanceSummary 0 0 1 0 0)).loggedBlocked = false := by
  decide

/-- C1 amended: on a Strict settle the summary total is the arithmetic
sum of the five counts, but persistence is withheld exactly when the sum
of the four counts other than relationshipWarningCount is positive
(relationship warnings contribute to the total yet never block); when
that four-count sum is 0, persistence proceeds — in particular it
resumes after having been blocked, whatever the prior gate state. -/
theorem strict_gate_blocks_iff_nonwarning_debt :
    ∀ (st : StrictGateState) (m e w i l : Nat),
      (mkGovernanceSummary m e w i l).total = m + e + w + i + l
        ∧ ((strictSettle st (mkGovernanceSummary m e w i l)).persisted = false
            ↔ m + e + i + l > 0) := by
  intro st m e w i l
  refine ⟨rfl, ?_⟩
  unfold strictSettle
  by_cases h4 : m + e + i + l > 0
  · have hbt : strictBlocked (mkGovernanceSummary m e w i l) = true := by
      simp [strictBlocked, mkGovernanceSummary]
      omega
    simp only [hbt, if_true]
    split <;> simp [h4]
  · have hbf : strictBlocked (mkGovernanceSummary m e w i l) = false := by
      simp [strictBlocked, mkGovernanceSummary]
      omega
    simp only [hbf, Bool.false_eq_true, if_false]
    split <;> simp [h4]

/-- C8 counterexample: three Advisory settles with fingerprints A, B, A
(each with positive total, A and B distinct) append three save.warned
entries, two of them for the same fingerprint A — one entry per distinct
fingerprint across a settle sequence is false at this input. -/
theorem advisory_once_per_fingerprint_counterexample :
    (mkGovernanceSummary 1 0 0 0 0).total > 0
      ∧ (mkGovernanceSummary 2 0 0 0 0).total > 0
      ∧ debtFingerprint (mkGovernanceSummary 1 0 0 0 0)
          ≠ debtFingerprint (mkGovernanceSummary 2 0 0 0 0)
      ∧ (advisoryRun none
          [mkGovernanceSummary 1 0 0 0 0,
           mkGovernanceSummary 2 0 0 0 0,
           mkGovernanceSummary 1 0 0 0 0]).2.count
            (debtFingerprint (mkGovernanceSummary 1 0 0 0 0)) = 2 := by
  decide

/-- C8 amended: one Advisory settle appends a save.warned entry exactly
when the total is positive and the fingerprint differs from the most
recently warned one (so consecutive settles with an identical
fingerprint append nothing and a changed fingerprint appends exactly one
more, but the memory holds only the last warned fingerprint and is
cleared by any zero-total settle); persistence proceeds on every settle
regardless of debt. -/
theorem advisory_settle_spec :
    ∀ (lastWarnKey : Option String) (s : GovernanceDebtSummary),
      ((advisorySettle lastWarnKey s).loggedWarned = true
          ↔ s.total > 0 ∧ lastWarnKey ≠ some (debtFingerprint s))
        ∧ (advisorySettle lastWarnKey s).persisted = true
        ∧ (s.total = 0 → (advisorySettle lastWarnKey s).lastWarnKey = none)
        ∧ ((advisorySettle lastWarnKey s).loggedWarned = true →
            (advisorySettle lastWarnKey s).lastWarnKey = some (debtFingerprint s)) := by
  intro lastWarnKey s
  unfold advisorySettle
  by_cases ht : s.total > 0
  · simp only [ht, if_true]
    by_cases hk : lastWarnKey ≠ some (debtFingerprint s) <;> simp [hk, ht] <;> omega
  · have ht0 : ¬ (s.total > 0) := ht
    simp [if_neg ht0]
    intro h
    exact absurd h ht0

/-- C9: in the relationship-projection loop of buildGovernanceDebt, a
source relationship whose trimmed endpoint ids are blank or do not both
resolve into the typed Element Store is skipped outright: the loop state
is returned untouched, so no typed insertion (and hence no structural
validation over the relationship store) is attempted, no validation
finding can arise from it, and no entry is added to
invalidRelationshipInserts. -/
theorem relationship_projection_skips_unresolved
    (eaRepository : EaRepository) (st : RelProjectionState) (i : Nat) (rel : EaRelationship)
    (h : strTrim rel.fromId = "" ∨ strTrim rel.toId = ""
        ∨ (supportedElementIds (buildElementStore eaRepository)).contains (strTrim rel.fromId) = false
        ∨ (supportedElementIds (buildElementStore eaRepository)).contains (strTrim rel.toId) = false) :
    projectRelationshipStep eaRepository (supportedElementIds (buildElementStore eaRepository))
      st i rel = st := by
  unfold projectRelationshipStep
  by_cases hblank : strTrim rel.fromId = "" ∨ strTrim rel.toId = ""
  · rcases hblank with hb | hb <;> simp [hb]
  · push_neg at hblank
    obtain ⟨hf, ht⟩ := hblank
    rcases h with h | h | h | h
    · exact absurd h hf
    · exact absurd h ht
    · have hn : strTrim rel.fromId ∉ supportedElementIds (buildElementStore eaRepository) := by
        simpa using h
      simp [hf, ht, hn]
    · have hn : strTrim rel.toId ∉ supportedElementIds (buildElementStore eaRepository) := by
        simpa using h
      simp [hf, ht, hn]

/-- Witness for C9 at a concrete input: one Application a1 is projected,
and a DEPENDS_ON relationship from a1 to the unresolved id ghost leaves
the projection state untouched. -/
theorem relationship_projection_skips_unresolved_witness :
    (strTrim "a1" = "" ∨ strTrim "ghost" = ""
        ∨ (supportedElementIds (buildElementStore
            ⟨[("a1", ⟨"a1", "Application", []⟩)], []⟩)).contains (strTrim "a1") = false
        ∨ (supportedElementIds (buildElementStore
            ⟨[("a1", ⟨"a1", "Application", []⟩)], []⟩)).contains (strTrim "ghost") = false)
    ∧ projectRelationshipStep ⟨[("a1", ⟨"a1", "Application", []⟩)], []⟩
        (supportedElementIds (buildElementStore ⟨[("a1", ⟨"a1", "Application", []⟩)], []⟩))
        ⟨createRelationshipRepository (buildElementStore ⟨[("a1", ⟨"a1", "Application", []⟩)], []⟩), []⟩
        0 ⟨"a1", "ghost", "DEPENDS_ON", []⟩
      = ⟨createRelationshipRepository (buildElementStore ⟨[("a1", ⟨"a1", "Application", []⟩)], []⟩), []⟩ :=
  ⟨by decide,
   relationship_projection_skips_unresolved
     ⟨[("a1", ⟨"a1", "Application", []⟩)], []⟩
     ⟨createRelationshipRepository (buildElementStore ⟨[("a1", ⟨"a1", "Application", []⟩)], []⟩), []⟩
     0 ⟨"a1", "ghost", "DEPENDS_ON", []⟩ (by decide)⟩

/-- A demo element repository for the relationship claims: two
Applications and one Technology inserted through addElement. -/
def relationshipDemoRepo : ArchitectureRepository :=
  (addElement
    (addElement
      (addElement emptyArchitectureRepository .applications ⟨"app1", .Application⟩).1
      .applications ⟨"app2", .Application⟩).1
    .technologies ⟨"tech1", .Technology⟩).1

/-- The empty relationship store over the demo repository. -/
def relationshipDemoStore : RelationshipStore :=
  createRelationshipRepository relationshipDemoRepo

/-- C2: addRelationship succeeds exactly when both endpoint ids resolve
to elements already present in the Element Store and the resolved
(source, target) element-type pair lies in the allowed from/to sets of
the semantics rule for the relationship type; concretely, DEPENDS_ON
from Application app1 to Application app2 succeeds, while DEPENDS_ON
from Application app1 to Technology tech1 fails with
EndpointTypeMismatch carrying the type and both endpoint ids. -/
theorem addRelationship_iff_endpoints_and_rule :
    (∀ (store : RelationshipStore) (record : RelationshipRecord),
      addRelationshipOk store record = true ↔
        ∃ src tgt rule,
          getElementById store.repo record.sourceElementId = some src
          ∧ getElementById store.repo record.targetElementId = some tgt
          ∧ getRelationshipEndpointRule record.relationshipType = some rule
          ∧ rule.fromTypes.contains (elementTypeName src.elementType) = true
          ∧ rule.toTypes.contains (elementTypeName tgt.elementType) = true)
    ∧ addRelationshipOk relationshipDemoStore
        ⟨"r1", "DEPENDS_ON", "app1", "Application", "app2", "Application"⟩ = true
    ∧ (addRelationship relationshipDemoStore
        ⟨"r2", "DEPENDS_ON", "app1", "Application", "tech1", "Technology"⟩).2
        = .error (.EndpointTypeMismatch "DEPENDS_ON" "app1" "tech1") := by
  refine ⟨?_, by decide, by decide⟩
  intro store record
  unfold addRelationshipOk addRelationship
  cases hsrc : getElementById store.repo record.sourceElementId with
  | none => simp [hsrc]
  | some src =>
    cases htgt : getElementById store.repo record.targetElementId with
    | none => simp [hsrc, htgt]
    | some tgt =>
      cases hrule : getRelationshipEndpointRule record.relationshipType with
      | none => simp [hrule]
      | some rule =>
        cases hc : (rule.fromTypes.contains (elementTypeName src.elementType)
            && rule.toTypes.contains (elementTypeName tgt.elementType)) with
        | true =>
          simp only [Bool.and_eq_true] at hc
          simp only [hc.1, hc.2, Bool.and_self, if_true]
          constructor
          · intro _
            exact ⟨src, tgt, rule, rfl, rfl, rfl, hc.1, hc.2⟩
          · intro _
            trivial
        | false =>
          simp only [hc, Bool.false_eq_true, if_false]
          simp only [Bool.and_eq_false_iff] at hc
          constructor
          · intro h
            exact h.elim
          · rintro ⟨s2, t2, r2, hs2, ht2, hr2, hf2, ht2b⟩
            simp only [Option.some.injEq] at hs2 ht2 hr2
            subst hs2
            subst ht2
            subst hr2
            rcases hc with hc | hc
            · rw [hf2] at hc
              exact Bool.noConfusion hc
            · rw [ht2b] at hc
              exact Bool.noConfusion hc

/-- C3 counterexample: under the Programme scope the policy table makes
Technology non-writable, yet the update boundary accepts an attribute
change to a Technology element — the model is replaced by the changed
value and no read-only message is surfaced, so the claimed rejection for
every scope is false at this input. -/
theorem programme_scope_update_not_rejected_counterexample :
    isObjectTypeWritableForScope (some .Programme) .Technology = false
      ∧ (⟨"t1", "Technology", [("name", .astr "DB")]⟩ : EaObject).type
          = objectTypeName .Technology
      ∧ stableStringifyAttrs [("name", AttrVal.astr "DB")]
          ≠ stableStringifyAttrs [("name", AttrVal.astr "DB2")]
      ∧ setEaRepositoryStep
          (some ⟨[("t1", ⟨"t1", "Technology", [("name", .astr "DB")]⟩)], []⟩)
          (some ⟨[("t1", ⟨"t1", "Technology", [("name", .astr "DB2")]⟩)], []⟩)
          (some .Programme)
        = (some ⟨[("t1", ⟨"t1", "Technology", [("name", .astr "DB2")]⟩)], []⟩, none)
      ∧ (⟨[("t1", ⟨"t1", "Technology", [("name", .astr "DB")]⟩)], []⟩ : EaRepository)
          ≠ ⟨[("t1", ⟨"t1", "Technology", [("name", .astr "DB2")]⟩)], []⟩ := by
  decide

/-- The per-id touch condition of the claim, as a checkable predicate:
the element under the id is added, removed, or present on both sides
with its type or serialized attributes changed, while the type on some
side is not writable under the scope. -/
def claimTouchAt (prev next : EaRepository) (architectureScope : Option ArchitectureScope)
    (id : String) : Bool :=
  match mapGet prev.objects id, mapGet next.objects id with
  | none, none => false
  | none, some b => !isAnyObjectTypeWritableForScope architectureScope (some b.type)
  | some a, none => !isAnyObjectTypeWritableForScope architectureScope (some a.type)
  | some a, some b =>
    (decide (a.type ≠ b.type)
        || decide (stableStringifyAttrs a.attributes ≠ stableStringifyAttrs b.attributes))
      && (!isAnyObjectTypeWritableForScope architectureScope (some a.type)
        || !isAnyObjectTypeWritableForScope architectureScope (some b.type))

/-- A claim-level touch makes the per-id source check fire. -/
theorem readOnlyChangeCheck_of_claimTouchAt
    (prev next : EaRepository) (architectureScope : Option ArchitectureScope) (id : String)
    (h : claimTouchAt prev next architectureScope id = true) :
    readOnlyChangeCheck architectureScope (mapGet prev.objects id) (mapGet next.objects id)
      = true := by
  unfold claimTouchAt at h
  unfold readOnlyChangeCheck
  cases ha : mapGet prev.objects id with
  | none =>
    cases hb : mapGet next.objects id with
    | none => rw [ha, hb] at h; exact Bool.noConfusion h
    | some b =>
      rw [ha, hb] at h
      simp only [Option.map_none', Option.map_some']
      simp [isAnyObjectTypeWritableForScope, h]
  | some a =>
    cases hb : mapGet next.objects id with
    | none =>
      rw [ha, hb] at h
      simp only [Option.map_none', Option.map_some']
      simp [isAnyObjectTypeWritableForScope, h]
    | some b =>
      rw [ha, hb] at h
      simp only [Option.map_some']
      simp only [Bool.and_eq_true, Bool.or_eq_true, decide_eq_true_eq] at h
      obtain ⟨hchange, hwrit⟩ := h
      have hguard : (!isAnyObjectTypeWritableForScope architectureScope (some a.type)
          || !isAnyObjectTypeWritableForScope architectureScope (some b.type)) = true := by
        rcases hwrit with hw | hw <;> simp [hw]
      rw [hguard]
      simp only [if_true]
      rcases hchange with hch | hch
      · simp [hch]
      · by_cases hty : a.type = b.type
        · simp [hty, hch]
        · simp [hty]

/-- C3 amended: the update boundary enforces the scope write policy only
under the Business Unit and Domain scopes (the Programme scope, despite
its policy-table row, is not checked there). Under those two scopes, an
attempted update in which some element is added, removed, or has its
type or serialized attributes changed while a non-writable type is
involved is rejected: the model is left at its pre-change value and the
scope-specific read-only message is surfaced. -/
theorem scoped_readonly_update_rejected
    (prev next : EaRepository) (architectureScope : Option ArchitectureScope) (id : String)
    (hscope : architectureScope = some .BusinessUnit ∨ architectureScope = some .Domain)
    (htouch : claimTouchAt prev next architectureScope id = true) :
    setEaRepositoryStep (some prev) (some next) architectureScope
      = (some prev, some (scopeRejectionMessage architectureScope)) := by
  have hcheck := readOnlyChangeCheck_of_claimTouchAt prev next architectureScope id htouch
  have hmem : id ∈ ((prev.objects.map (fun q => q.1))
      ++ (next.objects.map (fun q => q.1))).dedup := by
    rw [List.mem_dedup, List.mem_append]
    unfold claimTouchAt at htouch
    cases ha : mapGet prev.objects id with
    | some a => exact Or.inl (mapGet_mem_keys _ _ _ ha)
    | none =>
      cases hb : mapGet next.objects id with
      | some b => exact Or.inr (mapGet_mem_keys _ _ _ hb)
      | none =>
        rw [ha, hb] at htouch
        exact Bool.noConfusion htouch
  have hhas : hasReadOnlyObjectChanges (some prev) (some next) architectureScope = true := by
    unfold hasReadOnlyObjectChanges
    have hcond : ¬ (architectureScope ≠ some .BusinessUnit
        ∧ architectureScope ≠ some .Domain) := by
      rcases hscope with h | h <;> simp [h]
    rw [if_neg hcond]
    rw [List.any_eq_true]
    exact ⟨id, hmem, hcheck⟩
  unfold setEaRepositoryStep
  simp only [hhas]
  rfl

/-- Witness for the amended C3 at a concrete input: under the Business
Unit scope an attribute change to a Technology element t1 is rejected,
the model stays at its pre-change value, and the Business Unit read-only
message is surfaced. -/
theorem scoped_readonly_update_rejected_witness :
    ((some ArchitectureScope.BusinessUnit = some ArchitectureScope.BusinessUnit
        ∨ some ArchitectureScope.BusinessUnit = some ArchitectureScope.Domain)
      ∧ claimTouchAt
          ⟨[("t1", ⟨"t1", "Technology", [("name", .astr "DB")]⟩)], []⟩
          ⟨[("t1", ⟨"t1", "Technology", [("name", .astr "DB2")]⟩)], []⟩
          (some .BusinessUnit) "t1" = true)
    ∧ setEaRepositoryStep
        (some ⟨[("t1", ⟨"t1", "Technology", [("name", .astr "DB")]⟩)], []⟩)
        (some ⟨[("t1", ⟨"t1", "Technology", [("name", .astr "DB2")]⟩)], []⟩)
        (some .BusinessUnit)
      = (some ⟨[("t1", ⟨"t1", "Technology", [("name", .astr "DB")]⟩)], []⟩,
         some (scopeRejectionMessage (some .BusinessUnit))) :=
  ⟨⟨Or.inl rfl, by decide⟩,
   scoped_readonly_update_rejected
     ⟨[("t1", ⟨"t1", "Technology", [("name", .astr "DB")]⟩)], []⟩
     ⟨[("t1", ⟨"t1", "Technology", [("name", .astr "DB2")]⟩)], []⟩
     (some .BusinessUnit) "t1" (Or.inl rfl) (by decide)⟩

/-- The result of a successful objects-map rebuild is the accumulator
followed by the id-keyed objects, in order. -/
theorem buildObjectsMap_res :
    ∀ (os : List EaObject) (acc res : List (String × EaObject)),
      buildObjectsMap acc os = some res →
      res = acc ++ os.map (fun o => (o.id, o))
  | [], acc, res, h => by
    simp [buildObjectsMap] at h
    simp [h.symm]
  | o :: os, acc, res, h => by
    unfold buildObjectsMap at h
    split at h
    · exact Option.noConfusion h
    · have := buildObjectsMap_res os (acc ++ [(o.id, o)]) res h
      simp [this, List.append_assoc]

/-- Re-keying a list of objects by id and taking the values gives the
list back. -/
theorem map_pair_snd (l : List EaObject) :
    (l.map (fun o => (o.id, o))).map (fun p => (p.2 : EaObject)) = l := by
  induction l with
  | nil => rfl
  | cons x xs ih => simp [ih]

set_option maxRecDepth 4000 in
/-- C4 counterexample: a concrete snapshot serialized at one instant
deserializes back to the identical model and metadata, yet re-serializing
that unmodified model at the next instant yields different bytes — the
source stamps updatedAt with the wall clock inside serializeRepository,
so serialize/deserialize/serialize is not byte-identical. -/
theorem serialize_roundtrip_not_byte_identical_counterexample :
    tryDeserializeRepository (serializeRepository
        ⟨[("a1", ⟨"a1", "Application", [("name", .astr "App One")]⟩)], []⟩
        ⟨"Repo", "Org", .Enterprise, "ArchiMate", .Advisory, "Both", "Current",
         "2024-01-01T00:00:00.000Z"⟩
        "2024-01-01T00:00:00.000Z")
      = some (⟨[("a1", ⟨"a1", "Application", [("name", .astr "App One")]⟩)], []⟩,
              ⟨"Repo", "Org", .Enterprise, "ArchiMate", .Advisory, "Both", "Current",
               "2024-01-01T00:00:00.000Z"⟩)
    ∧ renderSerializedRepository (serializeRepository
        ⟨[("a1", ⟨"a1", "Application", [("name", .astr "App One")]⟩)], []⟩
        ⟨"Repo", "Org", .Enterprise, "ArchiMate", .Advisory, "Both", "Current",
         "2024-01-01T00:00:00.000Z"⟩
        "2024-01-01T00:00:00.001Z")
      ≠ renderSerializedRepository (serializeRepository
        ⟨[("a1", ⟨"a1", "Application", [("name", .astr "App One")]⟩)], []⟩
        ⟨"Repo", "Org", .Enterprise, "ArchiMate", .Advisory, "Both", "Current",
         "2024-01-01T00:00:00.000Z"⟩
        "2024-01-01T00:00:00.000Z") := by
  constructor
  · rfl
  · decide

/-- C4 amended: with the updatedAt stamp held fixed, serializing,
deserializing and re-serializing an unmodified model is byte-identical
(the serialization is deterministic given the stamp, with object keys in
the fixed insertion order of the serializer, not lexicographic order;
two serializations of one state differ exactly when their wall-clock
stamps differ). -/
theorem serialize_roundtrip_identical_at_fixed_stamp
    (repo : EaRepository) (metadata : EaRepositoryMetadata) (now : String)
    (out : EaRepository × EaRepositoryMetadata)
    (h : tryDeserializeRepository (serializeRepository repo metadata now) = some out) :
    renderSerializedRepository (serializeRepository out.1 out.2 now)
      = renderSerializedRepository (serializeRepository repo metadata now) := by
  unfold tryDeserializeRepository at h
  split at h
  · cases hb : buildObjectsMap [] (serializeRepository repo metadata now).objects with
    | none =>
      rw [hb] at h
      exact Option.noConfusion h
    | some objectsMap =>
      rw [hb] at h
      simp only [Option.some.injEq] at h
      have hres := buildObjectsMap_res _ _ _ hb
      simp only [List.nil_append] at hres
      subst hres
      rw [← h]
      have hobjeq : (((serializeRepository repo metadata now).objects.map
          (fun o => (o.id, o))).map
            (fun p => ({ id := p.2.id, type := p.2.type, attributes := p.2.attributes } : EaObject)))
          = (serializeRepository repo metadata now).objects := map_pair_snd _
      have hreleq : ((serializeRepository repo metadata now).relationships.map
          (fun r => ({ fromId := r.fromId, toId := r.toId, type := r.type,
                       attributes := r.attributes } : EaRelationship)))
          = (serializeRepository repo metadata now).relationships := List.map_id _
      have hser : serializeRepository
          ({ objects := (serializeRepository repo metadata now).objects.map (fun o => (o.id, o)),
             relationships := (serializeRepository repo metadata now).relationships } : EaRepository)
          (serializeRepository repo metadata now).metadata now
          = serializeRepository repo metadata now := by
        show SerializedRepository.mk 1 (serializeRepository repo metadata now).metadata
            (((serializeRepository repo metadata now).objects.map (fun o => (o.id, o))).map
              (fun p => ({ id := p.2.id, type := p.2.type, attributes := p.2.attributes } : EaObject)))
            ((serializeRepository repo metadata now).relationships.map
              (fun r => ({ fromId := r.fromId, toId := r.toId, type := r.type,
                           attributes := r.attributes } : EaRelationship)))
            now = serializeRepository repo metadata now
        rw [hobjeq, hreleq]
        rfl
      exact congrArg renderSerializedRepository hser
  · exact Option.noConfusion h

/-- Witness for the amended C4 at a concrete input: the demo snapshot
deserializes back to the identical model, and its re-serialization at
the same stamp is byte-identical. -/
theorem serialize_roundtrip_identical_at_fixed_stamp_witness :
    tryDeserializeRepository (serializeRepository
        ⟨[("a1", ⟨"a1", "Application", [("name", .astr "App One")]⟩)], []⟩
        ⟨"Repo", "Org", .Enterprise, "ArchiMate", .Advisory, "Both", "Current",
         "2024-01-01T00:00:00.000Z"⟩
        "2024-01-01T00:00:00.000Z")
      = some (⟨[("a1", ⟨"a1", "Application", [("name", .astr "App One")]⟩)], []⟩,
              ⟨"Repo", "Org", .Enterprise, "ArchiMate", .Advisory, "Both", "Current",
               "2024-01-01T00:00:00.000Z"⟩)
    ∧ renderSerializedRepository (serializeRepository
        (⟨[("a1", ⟨"a1", "Application", [("name", .astr "App One")]⟩)], []⟩ : EaRepository)
        ⟨"Repo", "Org", .Enterprise, "ArchiMate", .Advisory, "Both", "Current",
         "2024-01-01T00:00:00.000Z"⟩
        "2024-01-01T00:00:00.000Z")
      = renderSerializedRepository (serializeRepository
        ⟨[("a1", ⟨"a1", "Application", [("name", .astr "App One")]⟩)], []⟩
        ⟨"Repo", "Org", .Enterprise, "ArchiMate", .Advisory, "Both", "Current",
         "2024-01-01T00:00:00.000Z"⟩
        "2024-01-01T00:00:00.000Z") :=
  ⟨by rfl,
   serialize_roundtrip_identical_at_fixed_stamp
     ⟨[("a1", ⟨"a1", "Application", [("name", .astr "App One")]⟩)], []⟩
     ⟨"Repo", "Org", .Enterprise, "ArchiMate", .Advisory, "Both", "Current",
      "2024-01-01T00:00:00.000Z"⟩
     "2024-01-01T00:00:00.000Z"
     (⟨[("a1", ⟨"a1", "Application", [("name", .astr "App One")]⟩)], []⟩,
      ⟨"Repo", "Org", .Enterprise, "ArchiMate", .Advisory, "Both", "Current",
       "2024-01-01T00:00:00.000Z"⟩)
     (by rfl)⟩

/-! ## History infrastructure lemmas (claims C5 and C7) -/

/-- An EaRepository is well formed when its objects map is keyed by the
object ids, without duplicates — the invariant every container built by
deserialization satisfies. -/
def objectsWellFormed (r : EaRepository) : Bool :=
  r.objects.all (fun p => decide (p.1 = p.2.id))
    && decide ((r.objects.map (fun p => p.1)).Nodup)

/-- Adjacent serializations all differ (the committed-edit condition of
the history push: each settle found bytes differing from the last). -/
def consecutiveDistinct (m : EaRepositoryMetadata) (t : String) : List EaRepository → Bool
  | [] => true
  | [_] => true
  | a :: b :: rest =>
    decide (renderSerializedRepository (serializeRepository a m t)
        ≠ renderSerializedRepository (serializeRepository b m t))
      && consecutiveDistinct m t (b :: rest)

/-- A successful objects-map rebuild exists whenever the ids are free of
duplicates. -/
theorem buildObjectsMap_of_nodup :
    ∀ (os : List EaObject) (acc : List (String × EaObject)),
      ((acc.map (fun p => p.1)) ++ os.map (fun o => o.id)).Nodup →
      buildObjectsMap acc os = some (acc ++ os.map (fun o => (o.id, o)))
  | [], acc, _ => by simp [buildObjectsMap]
  | o :: os, acc, h => by
    unfold buildObjectsMap
    have hnot : o.id ∉ acc.map (fun p => p.1) := by
      intro hmem
      have hdisj := (List.nodup_append.mp h).2.2
      exact hdisj hmem (by simp)
    have hhas : mapHas acc o.id = false := by
      cases hh : mapHas acc o.id with
      | false => rfl
      | true => exact absurd ((mapHas_iff_mem acc o.id).mp hh) hnot
    rw [hhas]
    simp only [Bool.false_eq_true, if_false]
    have h2 : (((acc ++ [(o.id, o)]).map (fun p => p.1)) ++ os.map (fun o => o.id)).Nodup := by
      simp only [List.map_append, List.map_cons, List.map_nil, List.append_assoc,
        List.singleton_append] at h ⊢
      simpa using h
    rw [buildObjectsMap_of_nodup os (acc ++ [(o.id, o)]) h2]
    simp [List.append_assoc]

/-- Round trip of the provider serializer at the structure level: a
well-formed model with valid metadata deserializes from its own
serialization unchanged. -/
theorem tryDeserialize_serialize (r : EaRepository) (m : EaRepositoryMetadata) (t : String)
    (hw : objectsWellFormed r = true) (hm : validateRepositoryMetadata m = true) :
    tryDeserializeRepository (serializeRepository r m t) = some (r, m) := by
  unfold objectsWellFormed at hw
  simp only [Bool.and_eq_true, List.all_eq_true, decide_eq_true_eq] at hw
  obtain ⟨hkeys, hnodup⟩ := hw
  have hids : (serializeRepository r m t).objects.map (fun o => o.id)
      = r.objects.map (fun p => p.1) := by
    show (r.objects.map (fun p =>
        ({ id := p.2.id, type := p.2.type, attributes := p.2.attributes } : EaObject))).map
        (fun o => o.id) = r.objects.map (fun p => p.1)
    rw [List.map_map]
    exact List.map_congr_left (fun p hp => (hkeys p hp).symm)
  have hbuild : buildObjectsMap [] ((serializeRepository r m t).objects)
      = some ([] ++ ((serializeRepository r m t).objects).map (fun o => (o.id, o))) := by
    apply buildObjectsMap_of_nodup
    simp only [List.map_nil, List.nil_append]
    rw [hids]
    exact hnodup
  have hback : ((serializeRepository r m t).objects).map (fun o => (o.id, o)) = r.objects := by
    show ((r.objects.map (fun p =>
        ({ id := p.2.id, type := p.2.type, attributes := p.2.attributes } : EaObject))).map
        (fun o => (o.id, o))) = r.objects
    rw [List.map_map]
    have : ∀ p ∈ r.objects,
        ((fun o => ((o.id : String), (o : EaObject))) ∘ (fun p =>
          ({ id := p.2.id, type := p.2.type, attributes := p.2.attributes } : EaObject))) p = p := by
      intro p hp
      have := hkeys p hp
      simp only [Function.comp]
      cases p with
      | mk k v =>
        simp only at this
        subst this
        rfl
    calc (r.objects.map _) = r.objects.map id := List.map_congr_left this
    _ = r.objects := List.map_id r.objects
  have hrel : (serializeRepository r m t).relationships = r.relationships :=
    List.map_id r.relationships
  have hm2 : validateRepositoryMetadata (serializeRepository r m t).metadata = true := hm
  unfold tryDeserializeRepository
  rw [hm2]
  simp only [if_true]
  rw [hbuild]
  simp only [List.nil_append]
  rw [hback, hrel]
  rfl

/-- Below capacity, a capped push is a plain push. -/
theorem pushCapped_eq_cons (x : SerializedRepository) (l : List SerializedRepository)
    (h : l.length + 1 ≤ HISTORY_LIMIT) : pushCapped x l = x :: l := by
  show (if (x :: l).length > HISTORY_LIMIT then (x :: l).dropLast else (x :: l)) = x :: l
  have hn : ¬ ((x :: l).length > HISTORY_LIMIT) := by
    simp only [List.length_cons]
    omega
  rw [if_neg hn]

/-- A capped push is a push followed by truncation to the capacity. -/
theorem pushCapped_eq_take (x : SerializedRepository) (l : List SerializedRepository)
    (h : l.length ≤ HISTORY_LIMIT) : pushCapped x l = (x :: l).take HISTORY_LIMIT := by
  show (if (x :: l).length > HISTORY_LIMIT then (x :: l).dropLast else (x :: l))
      = (x :: l).take HISTORY_LIMIT
  by_cases hlen : (x :: l).length > HISTORY_LIMIT
  · have hl : l.length = HISTORY_LIMIT := by
      simp only [List.length_cons] at hlen
      omega
    simp only [hlen, if_true]
    rw [List.dropLast_eq_take]
    simp [hl]
  · simp only [hlen, if_false]
    have : HISTORY_LIMIT ≥ (x :: l).length := by omega
    rw [List.take_of_length_le this]

/-- A capped push never exceeds the capacity. -/
theorem pushCapped_length (x : SerializedRepository) (l : List SerializedRepository)
    (h : l.length ≤ HISTORY_LIMIT) : (pushCapped x l).length ≤ HISTORY_LIMIT := by
  rw [pushCapped_eq_take x l h]
  simp only [List.length_take, List.length_cons]
  omega

/-- Truncating the tail before an append does not change the truncated
append. -/
theorem take_append_take (A B : List SerializedRepository) (n : Nat) :
    (A ++ B.take n).take n = (A ++ B).take n := by
  rw [List.take_append_eq_append_take, List.take_append_eq_append_take, List.take_take]
  congr 1
  have : min (n - A.length) n = n - A.length := by omega
  rw [this]

/-- One undo on a good history state: the most recent undo entry is
popped and applied, the current serialization moves to the redo stack,
and the suppressed settle effect re-records the applied serialization. -/
theorem undoStep_good (m : EaRepositoryMetadata) (t : String)
    (p c : EaRepository) (rest : List SerializedRepository) (R : List SerializedRepository)
    (cu cr : Bool)
    (hm : validateRepositoryMetadata m = true)
    (hw : objectsWellFormed p = true)
    (hR : R.length + 1 ≤ HISTORY_LIMIT) :
    undoStep
      { repo := some c, metadata := some m,
        undoStack := serializeRepository p m t :: rest,
        redoStack := R,
        lastSerialized := some (serializeRepository c m t),
        suppressHistory := false, canUndo := cu, canRedo := cr } t
    = ({ repo := some p, metadata := some m,
         undoStack := rest,
         redoStack := serializeRepository c m t :: R,
         lastSerialized := some (serializeRepository p m t),
         suppressHistory := false,
         canUndo := !rest.isEmpty,
         canRedo := true }, true) := by
  unfold undoStep
  simp only
  rw [pushCapped_eq_cons _ _ hR]
  rw [tryDeserialize_serialize p m t hw hm]
  simp only
  unfold settleEffect
  simp only [Bool.not_true, Bool.false_eq_true, if_false, List.isEmpty_cons, Bool.not_false]

/-- One redo on a good history state; symmetric to undoStep_good. -/
theorem redoStep_good (m : EaRepositoryMetadata) (t : String)
    (y c : EaRepository) (rest : List SerializedRepository) (U : List SerializedRepository)
    (cu cr : Bool)
    (hm : validateRepositoryMetadata m = true)
    (hw : objectsWellFormed y = true)
    (hU : U.length + 1 ≤ HISTORY_LIMIT) :
    redoStep
      { repo := some c, metadata := some m,
        undoStack := U,
        redoStack := serializeRepository y m t :: rest,
        lastSerialized := some (serializeRepository c m t),
        suppressHistory := false, canUndo := cu, canRedo := cr } t
    = ({ repo := some y, metadata := some m,
         undoStack := serializeRepository c m t :: U,
         redoStack := rest,
         lastSerialized := some (serializeRepository y m t),
         suppressHistory := false,
         canUndo := true,
         canRedo := !rest.isEmpty }, true) := by
  unfold redoStep
  simp only
  rw [pushCapped_eq_cons _ _ hU]
  rw [tryDeserialize_serialize y m t hw hm]
  simp only
  unfold settleEffect
  simp only [Bool.not_true, Bool.false_eq_true, if_false, List.isEmpty_cons, Bool.not_false]

/-- The default of getLastD is irrelevant on a non-empty list. -/
theorem getLast_getD_cons_irrel {α : Type} (a : α) (l : List α) (d e : α) :
    (a :: l).getLast?.getD d = (a :: l).getLast?.getD e := by
  induction l generalizing a with
  | nil => rfl
  | cons b bs ih =>
    rw [List.getLast?_cons_cons]
    exact ih b

/-- Running undo once per undo-stack entry on a good history state: the
model returns to the oldest snapshot, the whole trail (previous
snapshots and the starting current one) moves onto the redo stack with
the most recently current entry deepest, and the undo stack empties. -/
theorem runUndo_phase (m : EaRepositoryMetadata) (t : String)
    (hm : validateRepositoryMetadata m = true) :
    ∀ (ps : List EaRepository) (c : EaRepository) (R : List SerializedRepository)
      (cu cr : Bool),
      (∀ p ∈ ps, objectsWellFormed p = true) →
      ps.length + R.length ≤ HISTORY_LIMIT →
      runUndo
        { repo := some c, metadata := some m,
          undoStack := ps.map (fun q => serializeRepository q m t),
          redoStack := R,
          lastSerialized := some (serializeRepository c m t),
          suppressHistory := false, canUndo := cu, canRedo := cr } t ps.length
      = { repo := some (ps.getLastD c), metadata := some m,
          undoStack := [],
          redoStack := (((c :: ps).dropLast).map (fun q => serializeRepository q m t)).reverse ++ R,
          lastSerialized := some (serializeRepository (ps.getLastD c) m t),
          suppressHistory := false,
          canUndo := if ps.isEmpty then cu else false,
          canRedo := if ps.isEmpty then cr else true }
  | [], c, R, cu, cr, _, _ => by
    simp [runUndo]
  | p :: ps, c, R, cu, cr, hw, hlen => by
    have hRlen : R.length + 1 ≤ HISTORY_LIMIT := by
      simp only [List.length_cons] at hlen
      omega
    have hstep := undoStep_good m t p c (ps.map (fun q => serializeRepository q m t)) R cu cr
      hm (hw p (by simp)) hRlen
    have hrun : runUndo
        { repo := some c, metadata := some m,
          undoStack := (p :: ps).map (fun q => serializeRepository q m t),
          redoStack := R,
          lastSerialized := some (serializeRepository c m t),
          suppressHistory := false, canUndo := cu, canRedo := cr } t (p :: ps).length
        = runUndo
          ({ repo := some p, metadata := some m,
             undoStack := ps.map (fun q => serializeRepository q m t),
             redoStack := serializeRepository c m t :: R,
             lastSerialized := some (serializeRepository p m t),
             suppressHistory := false,
             canUndo := !(ps.map (fun q => serializeRepository q m t)).isEmpty,
             canRedo := true }) t ps.length := by
      show runUndo (undoStep
        { repo := some c, metadata := some m,
          undoStack := serializeRepository p m t :: ps.map (fun q => serializeRepository q m t),
          redoStack := R,
          lastSerialized := some (serializeRepository c m t),
          suppressHistory := false, canUndo := cu, canRedo := cr } t).1 t ps.length = _
      rw [hstep]
    rw [hrun]
    have hlen2 : ps.length + (serializeRepository c m t :: R).length ≤ HISTORY_LIMIT := by
      simp only [List.length_cons] at hlen ⊢
      omega
    rw [runUndo_phase m t hm ps p (serializeRepository c m t :: R) _ _
      (fun q hq => hw q (by simp [hq])) hlen2]
    have hdrop : (c :: p :: ps).dropLast = c :: (p :: ps).dropLast := rfl
    rw [hdrop]
    cases ps with
    | nil => simp
    | cons a as =>
      simp only [List.map_cons, List.reverse_cons, List.append_assoc, List.singleton_append,
        List.isEmpty_cons, Bool.false_eq_true, if_false, List.getLastD_eq_getLast?]
      simp
      exact ⟨getLast_getD_cons_irrel a as p c,
        congrArg (fun r => serializeRepository r m t) (getLast_getD_cons_irrel a as p c)⟩

/-- Running redo once per redo-stack entry on a good history state;
mirror image of runUndo_phase. -/
theorem runRedo_phase (m : EaRepositoryMetadata) (t : String)
    (hm : validateRepositoryMetadata m = true) :
    ∀ (ys : List EaRepository) (c : EaRepository) (U : List SerializedRepository)
      (cu cr : Bool),
      (∀ y ∈ ys, objectsWellFormed y = true) →
      ys.length + U.length ≤ HISTORY_LIMIT →
      runRedo
        { repo := some c, metadata := some m,
          undoStack := U,
          redoStack := ys.map (fun q => serializeRepository q m t),
          lastSerialized := some (serializeRepository c m t),
          suppressHistory := false, canUndo := cu, canRedo := cr } t ys.length
      = { repo := some (ys.getLastD c), metadata := some m,
          undoStack := (((c :: ys).dropLast).map (fun q => serializeRepository q m t)).reverse ++ U,
          redoStack := [],
          lastSerialized := some (serializeRepository (ys.getLastD c) m t),
          suppressHistory := false,
          canUndo := if ys.isEmpty then cu else true,
          canRedo := if ys.isEmpty then cr else false }
  | [], c, U, cu, cr, _, _ => by
    simp [runRedo]
  | y :: ys, c, U, cu, cr, hw, hlen => by
    have hUlen : U.length + 1 ≤ HISTORY_LIMIT := by
      simp only [List.length_cons] at hlen
      omega
    have hstep := redoStep_good m t y c (ys.map (fun q => serializeRepository q m t)) U cu cr
      hm (hw y (by simp)) hUlen
    have hrun : runRedo
        { repo := some c, metadata := some m,
          undoStack := U,
          redoStack := (y :: ys).map (fun q => serializeRepository q m t),
          lastSerialized := some (serializeRepository c m t),
          suppressHistory := false, canUndo := cu, canRedo := cr } t (y :: ys).length
        = runRedo
          ({ repo := some y, metadata := some m,
             undoStack := serializeRepository c m t :: U,
             redoStack := ys.map (fun q => serializeRepository q m t),
             lastSerialized := some (serializeRepository y m t),
             suppressHistory := false,
             canUndo := true,
             canRedo := !(ys.map (fun q => serializeRepository q m t)).isEmpty }) t ys.length := by
      show runRedo (redoStep
        { repo := some c, metadata := some m,
          undoStack := U,
          redoStack := serializeRepository y m t :: ys.map (fun q => serializeRepository q m t),
          lastSerialized := some (serializeRepository c m t),
          suppressHistory := false, canUndo := cu, canRedo := cr } t).1 t ys.length = _
      rw [hstep]
    rw [hrun]
    have hlen2 : ys.length + (serializeRepository c m t :: U).length ≤ HISTORY_LIMIT := by
      simp only [List.length_cons] at hlen ⊢
      omega
    rw [runRedo_phase m t hm ys y (serializeRepository c m t :: U) _ _
      (fun q hq => hw q (by simp [hq])) hlen2]
    have hdrop : (c :: y :: ys).dropLast = c :: (y :: ys).dropLast := rfl
    rw [hdrop]
    cases ys with
    | nil => simp
    | cons a as =>
      simp only [List.map_cons, List.reverse_cons, List.append_assoc, List.singleton_append,
        List.isEmpty_cons, Bool.false_eq_true, if_false, List.getLastD_eq_getLast?]
      simp
      exact ⟨getLast_getD_cons_irrel a as y c,
        congrArg (fun r => serializeRepository r m t) (getLast_getD_cons_irrel a as y c)⟩

/-- One committed edit on a good history state: the previous
serialization is pushed (bounded) onto the undo stack, the redo stack is
cleared, and the new serialization becomes current. -/
theorem userEdit_good (m : EaRepositoryMetadata) (t : String)
    (c r : EaRepository) (U R : List SerializedRepository) (cu cr : Bool)
    (hdist : renderSerializedRepository (serializeRepository c m t)
      ≠ renderSerializedRepository (serializeRepository r m t))
    (hU : U.length ≤ HISTORY_LIMIT) :
    userEdit
      { repo := some c, metadata := some m, undoStack := U, redoStack := R,
        lastSerialized := some (serializeRepository c m t),
        suppressHistory := false, canUndo := cu, canRedo := cr } r t
    = { repo := some r, metadata := some m,
        undoStack := (serializeRepository c m t :: U).take HISTORY_LIMIT,
        redoStack := [],
        lastSerialized := some (serializeRepository r m t),
        suppressHistory := false, canUndo := true, canRedo := false } := by
  unfold userEdit settleEffect
  simp only [Bool.not_false, if_true]
  rw [if_pos hdist]
  rw [pushCapped_eq_take _ _ hU]

/-- Splitting the adjacent-distinctness condition at its head. -/
theorem consecutiveDistinct_cons (m : EaRepositoryMetadata) (t : String)
    (a b : EaRepository) (rest : List EaRepository)
    (h : consecutiveDistinct m t (a :: b :: rest) = true) :
    renderSerializedRepository (serializeRepository a m t)
      ≠ renderSerializedRepository (serializeRepository b m t)
    ∧ consecutiveDistinct m t (b :: rest) = true := by
  unfold consecutiveDistinct at h
  simp only [Bool.and_eq_true, decide_eq_true_eq] at h
  exact h

/-- The edit phase: folding committed edits over a good history state
pushes each previous serialization, newest first, truncating at the
capacity; the redo stack stays cleared and the model tracks the last
edit. -/
theorem editPhase (m : EaRepositoryMetadata) (t : String) :
    ∀ (rs : List EaRepository) (c : EaRepository) (U : List SerializedRepository)
      (cu cr : Bool),
      consecutiveDistinct m t (c :: rs) = true →
      U.length ≤ HISTORY_LIMIT →
      List.foldl (fun st r => userEdit st r t)
        { repo := some c, metadata := some m, undoStack := U, redoStack := [],
          lastSerialized := some (serializeRepository c m t),
          suppressHistory := false, canUndo := cu, canRedo := cr } rs
      = { repo := some (rs.getLastD c), metadata := some m,
          undoStack := ((((c :: rs).dropLast).map
            (fun q => serializeRepository q m t)).reverse ++ U).take HISTORY_LIMIT,
          redoStack := [],
          lastSerialized := some (serializeRepository (rs.getLastD c) m t),
          suppressHistory := false,
          canUndo := if rs.isEmpty then cu else true,
          canRedo := if rs.isEmpty then cr else false }
  | [], c, U, cu, cr, _, hU => by
    simp [List.take_of_length_le hU]
  | r :: rs, c, U, cu, cr, hdist, hU => by
    obtain ⟨hd1, hdrest⟩ := consecutiveDistinct_cons m t c r rs hdist
    have hstep := userEdit_good m t c r U [] cu cr hd1 hU
    have hfold : List.foldl (fun st q => userEdit st q t)
        { repo := some c, metadata := some m, undoStack := U, redoStack := [],
          lastSerialized := some (serializeRepository c m t),
          suppressHistory := false, canUndo := cu, canRedo := cr } (r :: rs)
        = List.foldl (fun st q => userEdit st q t)
          { repo := some r, metadata := some m,
            undoStack := (serializeRepository c m t :: U).take HISTORY_LIMIT,
            redoStack := [],
            lastSerialized := some (serializeRepository r m t),
            suppressHistory := false, canUndo := true, canRedo := false } rs := by
      rw [List.foldl_cons, hstep]
    rw [hfold]
    have hU2 : ((serializeRepository c m t :: U).take HISTORY_LIMIT).length ≤ HISTORY_LIMIT := by
      simp [List.length_take]
    rw [editPhase m t rs r ((serializeRepository c m t :: U).take HISTORY_LIMIT) true false
      hdrest hU2]
    have hdrop : (c :: r :: rs).dropLast = c :: (r :: rs).dropLast := rfl
    rw [hdrop]
    rw [List.getLastD_cons c r rs]
    have hstack : ((((r :: rs).dropLast).map (fun q => serializeRepository q m t)).reverse
          ++ (serializeRepository c m t :: U).take HISTORY_LIMIT).take HISTORY_LIMIT
        = (((c :: (r :: rs).dropLast).map
            (fun q => serializeRepository q m t)).reverse ++ U).take HISTORY_LIMIT := by
      rw [take_append_take]
      simp only [List.map_cons, List.reverse_cons, List.append_assoc, List.singleton_append]
    rw [hstack]
    cases rs <;> simp

/-- The last element (with default) lies in the default-then-list. -/
theorem getLastD_mem {α : Type} : ∀ (l : List α) (d : α), l.getLastD d ∈ d :: l
  | [], d => by simp
  | a :: l, d => by
    rw [List.getLastD_cons d a l]
    exact List.mem_cons_of_mem d (getLastD_mem l a)

/-- getLastD of a reversed list is headD. -/
theorem getLastD_reverse {α : Type} (l : List α) (d : α) :
    l.reverse.getLastD d = l.headD d := by
  rw [List.getLastD_eq_getLast?, List.getLast?_reverse, List.headD_eq_head?]

/-- dropLast of a cons with non-empty tail. -/
theorem dropLast_cons_ne {α : Type} (a : α) (l : List α) (h : l ≠ []) :
    (a :: l).dropLast = a :: l.dropLast := by
  cases l with
  | nil => exact absurd rfl h
  | cons b bs => rfl

/-- C5: starting a session from a committed model, performing N
committed edits (N at most the history capacity, each one changing the
serialized bytes), then invoking undo N times and redo N times restores
exactly the final edited model state (the same repository value and
metadata the edit phase ended with); and undo invoked with an empty undo
stack returns a failed result and leaves the model, metadata, stacks and
last serialization unchanged (only the canUndo flag is cleared). -/
theorem undo_redo_roundtrip
    (m : EaRepositoryMetadata) (t : String) (r0 : EaRepository) (rs : List EaRepository)
    (hm : validateRepositoryMetadata m = true)
    (hw : (r0 :: rs).all objectsWellFormed = true)
    (hd : consecutiveDistinct m t (r0 :: rs) = true)
    (hn : rs.length ≤ HISTORY_LIMIT) :
    ((runRedo (runUndo (List.foldl (fun st r => userEdit st r t)
        { repo := some r0, metadata := some m, undoStack := [], redoStack := [],
          lastSerialized := some (serializeRepository r0 m t),
          suppressHistory := false, canUndo := false, canRedo := false } rs) t rs.length)
        t rs.length).repo = some (rs.getLastD r0)
      ∧ (runRedo (runUndo (List.foldl (fun st r => userEdit st r t)
          { repo := some r0, metadata := some m, undoStack := [], redoStack := [],
            lastSerialized := some (serializeRepository r0 m t),
            suppressHistory := false, canUndo := false, canRedo := false } rs) t rs.length)
          t rs.length).metadata = some m
      ∧ (List.foldl (fun st r => userEdit st r t)
          { repo := some r0, metadata := some m, undoStack := [], redoStack := [],
            lastSerialized := some (serializeRepository r0 m t),
            suppressHistory := false, canUndo := false, canRedo := false } rs).repo
          = some (rs.getLastD r0))
    ∧ (∀ st : ProviderState, st.undoStack = [] →
        undoStep st t = ({ st with canUndo := false }, false)) := by
  constructor
  · have hw' : ∀ p ∈ r0 :: rs, objectsWellFormed p = true := by
      intro p hp
      exact List.all_eq_true.mp hw p hp
    have hEdit := editPhase m t rs r0 [] false false hd (by simp [HISTORY_LIMIT])
    rw [List.append_nil] at hEdit
    have hlenP : (((r0 :: rs).dropLast).map
        (fun q => serializeRepository q m t)).reverse.length ≤ HISTORY_LIMIT := by
      simp only [List.length_reverse, List.length_map, List.length_dropLast, List.length_cons]
      omega
    rw [List.take_of_length_le hlenP] at hEdit
    rw [hEdit]
    -- undo phase
    have hmapP : (((r0 :: rs).dropLast).map (fun q => serializeRepository q m t)).reverse
        = (((r0 :: rs).dropLast).reverse).map (fun q => serializeRepository q m t) :=
      (List.map_reverse _ _).symm
    have hwP : ∀ p ∈ ((r0 :: rs).dropLast).reverse, objectsWellFormed p = true := by
      intro p hp
      exact hw' p ((List.dropLast_sublist (r0 :: rs)).mem (List.mem_reverse.mp hp))
    have hlenP2 : (((r0 :: rs).dropLast).reverse).length + ([] : List SerializedRepository).length
        ≤ HISTORY_LIMIT := by
      simp only [List.length_reverse, List.length_dropLast, List.length_cons, List.length_nil]
      omega
    have hcount : rs.length = (((r0 :: rs).dropLast).reverse).length := by
      simp
    have hUndo := runUndo_phase m t hm (((r0 :: rs).dropLast).reverse) (rs.getLastD r0) []
      (if rs.isEmpty then false else true) (if rs.isEmpty then false else false) hwP hlenP2
    rw [hmapP, hcount, hUndo]
    -- the model is back at the initial repository
    have hback : (((r0 :: rs).dropLast).reverse).getLastD (rs.getLastD r0) = r0 := by
      rw [getLastD_reverse]
      cases rs with
      | nil => rfl
      | cons a as =>
        rw [dropLast_cons_ne r0 (a :: as) (by simp)]
        rfl
    rw [hback]
    -- redo phase
    have hmapY : (((rs.getLastD r0 :: ((r0 :: rs).dropLast).reverse).dropLast).map
          (fun q => serializeRepository q m t)).reverse
        = (((rs.getLastD r0 :: ((r0 :: rs).dropLast).reverse).dropLast).reverse).map
          (fun q => serializeRepository q m t) :=
      (List.map_reverse _ _).symm
    have hwY : ∀ y ∈ ((rs.getLastD r0 :: ((r0 :: rs).dropLast).reverse).dropLast).reverse,
        objectsWellFormed y = true := by
      intro y hy
      have hy2 : y ∈ rs.getLastD r0 :: ((r0 :: rs).dropLast).reverse :=
        (List.dropLast_sublist _).mem (List.mem_reverse.mp hy)
      rcases List.mem_cons.mp hy2 with hy3 | hy3
      · subst hy3
        rcases List.mem_cons.mp (getLastD_mem rs r0) with hy4 | hy4
        · rw [hy4]
          exact hw' r0 (by simp)
        · exact hw' _ (List.mem_cons_of_mem r0 hy4)
      · exact hw' y ((List.dropLast_sublist (r0 :: rs)).mem (List.mem_reverse.mp hy3))
    have hlenY : (((rs.getLastD r0 :: ((r0 :: rs).dropLast).reverse).dropLast).reverse).length
        + ([] : List SerializedRepository).length ≤ HISTORY_LIMIT := by
      simp only [List.length_reverse, List.length_dropLast, List.length_cons, List.length_nil]
      omega
    have hcountY : (((r0 :: rs).dropLast).reverse).length
        = (((rs.getLastD r0 :: ((r0 :: rs).dropLast).reverse).dropLast).reverse).length := by
      simp
    have hRedo := runRedo_phase m t hm
      (((rs.getLastD r0 :: ((r0 :: rs).dropLast).reverse).dropLast).reverse) r0 []
      (if (((r0 :: rs).dropLast).reverse).isEmpty then (if rs.isEmpty then false else true)
        else false)
      (if (((r0 :: rs).dropLast).reverse).isEmpty then (if rs.isEmpty then false else false)
        else true) hwY hlenY
    rw [List.append_nil, hmapY, hcountY, hRedo]
    -- the model is at the final edited state again
    have hfwd : (((rs.getLastD r0 :: ((r0 :: rs).dropLast).reverse).dropLast).reverse).getLastD r0
        = rs.getLastD r0 := by
      rw [getLastD_reverse]
      cases hps : ((r0 :: rs).dropLast).reverse with
      | nil =>
        have : rs = [] := by
          have hlen0 := congrArg List.length hps
          simp at hlen0
          cases rs with
          | nil => rfl
          | cons a as => simp at hlen0
        subst this
        rfl
      | cons a as =>
        rw [dropLast_cons_ne _ (a :: as) (by simp)]
        rfl
    rw [hfwd]
    exact ⟨rfl, rfl, rfl⟩
  · intro st hempty
    unfold undoStep
    rw [hempty]

/-- Concrete metadata for the history witnesses. -/
def historyDemoMetadata : EaRepositoryMetadata :=
  ⟨"Repo", "Org", .Enterprise, "ArchiMate", .Strict, "Both", "Current", "D0"⟩

/-- Concrete initial repository for the history witnesses. -/
def historyDemoR0 : EaRepository := ⟨[], []⟩

/-- Two concrete distinct edits for the undo/redo witness. -/
def historyDemoEdits : List EaRepository :=
  [⟨[("a", ⟨"a", "Application", []⟩)], []⟩,
   ⟨[("a", ⟨"a", "Application", []⟩), ("b", ⟨"b", "Application", []⟩)], []⟩]

set_option maxRecDepth 16000 in
/-- Witness for C5 at a concrete input: two committed edits, two undos
and two redos restore the final edited repository. -/
theorem undo_redo_roundtrip_witness :
    (validateRepositoryMetadata historyDemoMetadata = true
      ∧ (historyDemoR0 :: historyDemoEdits).all objectsWellFormed = true
      ∧ consecutiveDistinct historyDemoMetadata "T" (historyDemoR0 :: historyDemoEdits) = true
      ∧ historyDemoEdits.length ≤ HISTORY_LIMIT)
    ∧ (((runRedo (runUndo (List.foldl (fun st r => userEdit st r "T")
          { repo := some historyDemoR0, metadata := some historyDemoMetadata,
            undoStack := [], redoStack := [],
            lastSerialized := some (serializeRepository historyDemoR0 historyDemoMetadata "T"),
            suppressHistory := false, canUndo := false, canRedo := false } historyDemoEdits)
          "T" historyDemoEdits.length) "T" historyDemoEdits.length).repo
          = some (historyDemoEdits.getLastD historyDemoR0)
        ∧ (runRedo (runUndo (List.foldl (fun st r => userEdit st r "T")
          { repo := some historyDemoR0, metadata := some historyDemoMetadata,
            undoStack := [], redoStack := [],
            lastSerialized := some (serializeRepository historyDemoR0 historyDemoMetadata "T"),
            suppressHistory := false, canUndo := false, canRedo := false } historyDemoEdits)
          "T" historyDemoEdits.length) "T" historyDemoEdits.length).metadata
          = some historyDemoMetadata
        ∧ (List.foldl (fun st r => userEdit st r "T")
          { repo := some historyDemoR0, metadata := some historyDemoMetadata,
            undoStack := [], redoStack := [],
            lastSerialized := some (serializeRepository historyDemoR0 historyDemoMetadata "T"),
            suppressHistory := false, canUndo := false, canRedo := false } historyDemoEdits).repo
          = some (historyDemoEdits.getLastD historyDemoR0))
      ∧ (∀ st : ProviderState, st.undoStack = [] →
          undoStep st "T" = ({ st with canUndo := false }, false))) :=
  ⟨⟨by decide, by decide, by decide, by decide⟩,
   undo_redo_roundtrip historyDemoMetadata "T" historyDemoR0 historyDemoEdits
     (by decide) (by decide) (by decide) (by decide)⟩

/-- The settle effect keeps both stacks within the capacity. -/
theorem settleEffect_bounded (st : ProviderState) (now : String)
    (hu : st.undoStack.length ≤ HISTORY_LIMIT) (hr : st.redoStack.length ≤ HISTORY_LIMIT) :
    (settleEffect st now).undoStack.length ≤ HISTORY_LIMIT
      ∧ (settleEffect st now).redoStack.length ≤ HISTORY_LIMIT := by
  unfold settleEffect
  rcases st with ⟨repo, metadata, undoStack, redoStack, lastSerialized, suppress, cu, cr⟩
  simp only at hu hr
  cases repo with
  | none => exact ⟨hu, hr⟩
  | some r =>
    cases metadata with
    | none => exact ⟨hu, hr⟩
    | some m =>
      cases suppress with
      | true => exact ⟨hu, hr⟩
      | false =>
        cases lastSerialized with
        | none => exact ⟨hu, hr⟩
        | some prev =>
          simp only [Bool.not_false, if_true]
          split
          · exact ⟨pushCapped_length _ _ hu, by simp⟩
          · exact ⟨hu, hr⟩

/-- undo keeps both stacks within the capacity. -/
theorem undoStep_bounded (st : ProviderState) (now : String)
    (hu : st.undoStack.length ≤ HISTORY_LIMIT) (hr : st.redoStack.length ≤ HISTORY_LIMIT) :
    ((undoStep st now).1).undoStack.length ≤ HISTORY_LIMIT
      ∧ ((undoStep st now).1).redoStack.length ≤ HISTORY_LIMIT := by
  unfold undoStep
  rcases st with ⟨repo, metadata, undoStack, redoStack, lastSerialized, suppress, cu, cr⟩
  simp only at hu hr
  cases undoStack with
  | nil => exact ⟨hu, hr⟩
  | cons prev rest =>
    have hrest : rest.length ≤ HISTORY_LIMIT := by
      simp only [List.length_cons] at hu
      omega
    cases lastSerialized with
    | none =>
      cases hdes : tryDeserializeRepository prev with
      | none =>
        simp only [hdes]
        exact ⟨hrest, hr⟩
      | some rm =>
        cases rm with
        | mk r m =>
          simp only [hdes]
          exact settleEffect_bounded _ now hrest hr
    | some current =>
      have hpush : (pushCapped current redoStack).length ≤ HISTORY_LIMIT :=
        pushCapped_length _ _ hr
      cases hdes : tryDeserializeRepository prev with
      | none =>
        simp only [hdes]
        exact ⟨hrest, hpush⟩
      | some rm =>
        cases rm with
        | mk r m =>
          simp only [hdes]
          exact settleEffect_bounded _ now hrest hpush

/-- redo keeps both stacks within the capacity. -/
theorem redoStep_bounded (st : ProviderState) (now : String)
    (hu : st.undoStack.length ≤ HISTORY_LIMIT) (hr : st.redoStack.length ≤ HISTORY_LIMIT) :
    ((redoStep st now).1).undoStack.length ≤ HISTORY_LIMIT
      ∧ ((redoStep st now).1).redoStack.length ≤ HISTORY_LIMIT := by
  unfold redoStep
  rcases st with ⟨repo, metadata, undoStack, redoStack, lastSerialized, suppress, cu, cr⟩
  simp only at hu hr
  cases redoStack with
  | nil => exact ⟨hu, hr⟩
  | cons next rest =>
    have hrest : rest.length ≤ HISTORY_LIMIT := by
      simp only [List.length_cons] at hr
      omega
    cases lastSerialized with
    | none =>
      cases hdes : tryDeserializeRepository next with
      | none =>
        simp only [hdes]
        exact ⟨hu, hrest⟩
      | some rm =>
        cases rm with
        | mk r m =>
          simp only [hdes]
          exact settleEffect_bounded _ now hu hrest
    | some current =>
      have hpush : (pushCapped current undoStack).length ≤ HISTORY_LIMIT :=
        pushCapped_length _ _ hu
      cases hdes : tryDeserializeRepository next with
      | none =>
        simp only [hdes]
        exact ⟨hpush, hrest⟩
      | some rm =>
        cases rm with
        | mk r m =>
          simp only [hdes]
          exact settleEffect_bounded _ now hpush hrest

/-- C7: the undo and redo stacks never exceed the 50-entry capacity —
every operation (committed edit, undo, redo) preserves the bound, with
the oldest entry evicted on overflow — and after 60 distinct committed
edits from a fresh session the undo stack holds exactly the 50 most
recent previous serializations (newest first), the 10 oldest having been
evicted. -/
theorem history_stacks_bounded_and_capped :
    (∀ (st : ProviderState) (r : EaRepository) (now : String),
      st.undoStack.length ≤ HISTORY_LIMIT → st.redoStack.length ≤ HISTORY_LIMIT →
      ((userEdit st r now).undoStack.length ≤ HISTORY_LIMIT
        ∧ (userEdit st r now).redoStack.length ≤ HISTORY_LIMIT)
      ∧ (((undoStep st now).1).undoStack.length ≤ HISTORY_LIMIT
        ∧ ((undoStep st now).1).redoStack.length ≤ HISTORY_LIMIT)
      ∧ (((redoStep st now).1).undoStack.length ≤ HISTORY_LIMIT
        ∧ ((redoStep st now).1).redoStack.length ≤ HISTORY_LIMIT))
    ∧ (∀ (m : EaRepositoryMetadata) (t : String) (r0 : EaRepository)
        (rs : List EaRepository),
        consecutiveDistinct m t (r0 :: rs) = true →
        rs.length = 60 →
        (List.foldl (fun st r => userEdit st r t)
          { repo := some r0, metadata := some m, undoStack := [], redoStack := [],
            lastSerialized := some (serializeRepository r0 m t),
            suppressHistory := false, canUndo := false, canRedo := false } rs).undoStack
          = ((((r0 :: rs).dropLast).map
              (fun q => serializeRepository q m t)).reverse).take HISTORY_LIMIT
        ∧ (List.foldl (fun st r => userEdit st r t)
            { repo := some r0, metadata := some m, undoStack := [], redoStack := [],
              lastSerialized := some (serializeRepository r0 m t),
              suppressHistory := false, canUndo := false, canRedo := false } rs).undoStack.length
            = HISTORY_LIMIT) := by
  constructor
  · intro st r now hu hr
    exact ⟨settleEffect_bounded { st with repo := some r } now hu hr,
      undoStep_bounded st now hu hr, redoStep_bounded st now hu hr⟩
  · intro m t r0 rs hd hlen
    have hEdit := editPhase m t rs r0 [] false false hd (by simp)
    rw [List.append_nil] at hEdit
    rw [hEdit]
    refine ⟨rfl, ?_⟩
    simp only [List.length_take, List.length_reverse, List.length_map, List.length_dropLast,
      List.length_cons, hlen]
    rfl

/-- Concrete initial repository for the 60-edit capacity witness. -/
def historyCapDemoR0 : EaRepository :=
  ⟨[("o", ⟨"o", "Application", [("n", .anum 0)]⟩)], []⟩

/-- Sixty concrete distinct edits (the counter attribute n advances). -/
def historyCapDemoEdits : List EaRepository :=
  (List.range 60).map (fun i =>
    ⟨[("o", ⟨"o", "Application", [("n", .anum (Int.ofNat i + 1))]⟩)], []⟩)

/-- The fresh session state over the capacity-demo repository. -/
def historyCapDemoState : ProviderState :=
  { repo := some historyCapDemoR0, metadata := some historyDemoMetadata,
    undoStack := [], redoStack := [],
    lastSerialized := some (serializeRepository historyCapDemoR0 historyDemoMetadata "T"),
    suppressHistory := false, canUndo := false, canRedo := false }

set_option maxRecDepth 100000 in
/-- Witness for C7 at a concrete input: the fresh session state is
within bounds (so each operation preserves the bounds there), and sixty
distinct concrete edits leave the undo stack at exactly the capacity,
holding the newest fifty previous serializations. -/
theorem history_stacks_bounded_and_capped_witness :
    (consecutiveDistinct historyDemoMetadata "T" (historyCapDemoR0 :: historyCapDemoEdits) = true
      ∧ historyCapDemoEdits.length = 60
      ∧ historyCapDemoState.undoStack.length ≤ HISTORY_LIMIT
      ∧ historyCapDemoState.redoStack.length ≤ HISTORY_LIMIT)
    ∧ (((userEdit historyCapDemoState historyCapDemoR0 "T").undoStack.length ≤ HISTORY_LIMIT
        ∧ (userEdit historyCapDemoState historyCapDemoR0 "T").redoStack.length ≤ HISTORY_LIMIT)
      ∧ (((undoStep historyCapDemoState "T").1).undoStack.length ≤ HISTORY_LIMIT
        ∧ ((undoStep historyCapDemoState "T").1).redoStack.length ≤ HISTORY_LIMIT)
      ∧ (((redoStep historyCapDemoState "T").1).undoStack.length ≤ HISTORY_LIMIT
        ∧ ((redoStep historyCapDemoState "T").1).redoStack.length ≤ HISTORY_LIMIT))
    ∧ ((List.foldl (fun st r => userEdit st r "T") historyCapDemoState
          historyCapDemoEdits).undoStack
          = ((((historyCapDemoR0 :: historyCapDemoEdits).dropLast).map
              (fun q => serializeRepository q historyDemoMetadata "T")).reverse).take HISTORY_LIMIT
      ∧ (List.foldl (fun st r => userEdit st r "T") historyCapDemoState
          historyCapDemoEdits).undoStack.length = HISTORY_LIMIT) :=
  ⟨⟨by decide, by rfl, by decide, by decide⟩,
   history_stacks_bounded_and_capped.1 historyCapDemoState historyCapDemoR0 "T"
     (by decide) (by decide),
   history_stacks_bounded_and_capped.2 historyDemoMetadata "T" historyCapDemoR0
     historyCapDemoEdits (by decide) (by rfl)⟩

/-- Witness for the amended C8 at a concrete input: a first Advisory
settle with one mandatory finding warns, persists, and records the
fingerprint. -/
theorem advisory_settle_spec_witness :
    ((advisorySettle none (mkGovernanceSummary 1 0 0 0 0)).loggedWarned = true
        ↔ (mkGovernanceSummary 1 0 0 0 0).total > 0
          ∧ (none : Option String) ≠ some (debtFingerprint (mkGovernanceSummary 1 0 0 0 0)))
      ∧ (advisorySettle none (mkGovernanceSummary 1 0 0 0 0)).persisted = true
      ∧ ((mkGovernanceSummary 1 0 0 0 0).total = 0 →
          (advisorySettle none (mkGovernanceSummary 1 0 0 0 0)).lastWarnKey = none)
      ∧ ((advisorySettle none (mkGovernanceSummary 1 0 0 0 0)).loggedWarned = true →
          (advisorySettle none (mkGovernanceSummary 1 0 0 0 0)).lastWarnKey
            = some (debtFingerprint (mkGovernanceSummary 1 0 0 0 0))) :=
  advisory_settle_spec none (mkGovernanceSummary 1 0 0 0 0)
